import Mathlib

/-!
Verification development for the `pg-schema-gen` schema-to-type-model compiler.

The definitions in this file are a shallow embedding of the JavaScript sources:

* `src/src/utils.js` — string utilities (`findComment`, `toTsName`, `toJsDoc`,
  `toConvoComment`, `removeSqlComments`, `removeTrailingComma`);
* `src/src/pg-types.js` — accessors over the parsed SQL declaration tree;
* `src/unnamed/part_002` (`pg-schema-gen.js`, the current pgsql-parser based
  generator) — the type-model builder (`createType`, `createEnum`), the
  table/name map, the type-map resolution and the emitters
  (`typesToString`, `sortObj`);
* `src/unnamed/part_003` (the older pgsql-ast-parser variant) — only its
  array-type unwrapping loop.

Source text is modelled as `List Char`; JavaScript string primitives
(`indexOf`, `lastIndexOf`, `substring`, `trim`, `startsWith`) are embedded
with their JS clamping semantics over character lists (`js*` definitions).
JavaScript objects used as string-keyed maps are modelled as association
lists with insertion-order semantics (`objGet` / `objSet`): assignment to an
existing key keeps its position, assignment to a fresh key appends.  Numbers
used as source offsets are `Int` (JS uses `-1` as a sentinel).  Whitespace
and case conversion are modelled over ASCII, which covers the generator's
own alphabet.
-/

namespace PgSchemaGen

/-! ## JavaScript string primitives (over `List Char`) -/

/-- The whitespace characters recognised by JS `String.prototype.trim`
(ASCII fragment). -/
def isJsWs (c : Char) : Bool :=
  c = ' ' || c = '\t' || c = '\n' || c = '\r' || c = '\x0b' || c = '\x0c'

/-- JS `s.trim()`: drop whitespace from both ends. -/
def jsTrim (l : List Char) : List Char :=
  ((l.dropWhile isJsWs).reverse.dropWhile isJsWs).reverse

/-- JS `s.substring(a, b)`: clamp both indices into `[0, length]`, swap them
if out of order, and return the characters in between. -/
def jsSubstring (l : List Char) (a b : Int) : List Char :=
  let a' := min a.toNat l.length
  let b' := min b.toNat l.length
  (l.take (max a' b')).drop (min a' b')

/-- JS `s.indexOf(c, f)` for a single-character needle: first index `≥ f`
holding `c`, else `-1` (negative `f` behaves like `0`). -/
def jsIndexOf (l : List Char) (c : Char) (f : Int) : Int :=
  match (l.drop f.toNat).findIdx? (· = c) with
  | some k => ((f.toNat + k : Nat) : Int)
  | none => -1

/-- Index of the last occurrence of `c` in `l`, if any. -/
def lastIdxOf : List Char → Char → Option Nat
  | [], _ => none
  | a :: as, c =>
    match lastIdxOf as c with
    | some k => some (k + 1)
    | none => if a = c then some 0 else none

/-- JS `s.lastIndexOf(c, f)` for a single-character needle: last index
`≤ min f (length-1)` holding `c`, else `-1` (negative `f` behaves like `0`,
i.e. only position 0 is examined). -/
def jsLastIndexOf (l : List Char) (c : Char) (f : Int) : Int :=
  match lastIdxOf (l.take (min f.toNat (l.length - 1) + 1)) c with
  | some k => (k : Int)
  | none => -1

/-- Embeds `line.startsWith('--')` on a character list. -/
def startsDashDash : List Char → Bool
  | '-' :: '-' :: _ => true
  | _ => false

/-- Embeds `line.startsWith('-- ')` on a character list. -/
def startsDashDashSpace : List Char → Bool
  | '-' :: '-' :: ' ' :: _ => true
  | _ => false

/-- Embeds `lines.join('\n')` on character lists. -/
def jsJoinNl : List (List Char) → List Char
  | [] => []
  | [x] => x
  | x :: xs => x ++ '\n' :: jsJoinNl xs

/-! ## `findComment` (src/src/utils.js, lines 135-175)

The `while` loop of `findComment` is embedded with an explicit fuel
parameter; `findComment` passes `sql.length + 2` fuel, which is shown below
to suffice (each backward step strictly decreases the cursor, each forward
step strictly increases it within the buffer). -/

/-- The scanning loop of `findComment`: walk line-by-line (backward or
forward), collecting comment/blank lines with their `--` marker and a single
following space stripped, until a non-blank non-comment line or the buffer
boundary is reached. -/
def findCommentLoop (sql : List Char) (forward : Bool) :
    Nat → Int → List (List Char) → List (List Char)
  | 0, _, lines => lines
  | fuel + 1, i, lines =>
    if i > -1 ∧ i ≤ (sql.length : Int) then
      let s := if forward then jsIndexOf sql '\n' (i + 1) else jsLastIndexOf sql '\n' i
      if s = -1 then lines
      else
        let line := jsTrim (if forward then jsSubstring sql i s else jsSubstring sql s (i + 1))
        if line ≠ [] ∧ ¬ startsDashDash line then lines
        else
          let stripped := if startsDashDashSpace line then line.drop 3 else line.drop 2
          let lines' := if forward then lines ++ [stripped] else stripped :: lines
          findCommentLoop sql forward fuel (if forward then s + 1 else s - 1) lines'
    else lines

/-- Embeds `findComment(sql, statementStart, forward)` from src/src/utils.js:
recover the contiguous block of `--` comment lines before (or after) the
given offset.  Returns `none` when no non-blank comment content was found,
otherwise the collected lines joined with newlines and trimmed. -/
def findComment (sql : List Char) (statementStart : Int) (forward : Bool) :
    Option (List Char) :=
  let i0 : Int := if forward then statementStart else jsLastIndexOf sql '\n' statementStart
  if i0 = -1 then none
  else
    let i1 := if jsSubstring sql i0 1 = [';'] then i0 + 1 else i0
    let i2 := if forward then i1 else i1 - 1
    let lines := findCommentLoop sql forward (sql.length + 2) i2 []
    let lines2 := (lines.reverse.dropWhile (fun l => l = [])).reverse
    if lines2 = [] then none else some (jsTrim (jsJoinNl lines2))

/-! ## Remaining utilities from src/src/utils.js -/

/-- Embeds `trim` on `String`. -/
def strTrim (s : String) : String := String.mk (jsTrim s.data)

/-- Split a character list at every occurrence of a separator character
(JS `s.split(c)`). -/
def splitOnChar (c : Char) : List Char → List (List Char)
  | [] => [[]]
  | a :: rest =>
    match splitOnChar c rest with
    | [] => [[a]]
    | x :: xs => if a = c then [] :: x :: xs else (a :: x) :: xs

/-- Split a character list at every occurrence of `*/`
(JS `s.split('*/')`, specialised to the two-character separator). -/
def splitStarSlash : List Char → List (List Char)
  | [] => [[]]
  | '*' :: '/' :: rest =>
    match splitStarSlash rest with
    | [] => [[], []]
    | xs => [] :: xs
  | a :: rest =>
    match splitStarSlash rest with
    | [] => [[a]]
    | x :: xs => (a :: x) :: xs

/-- Embeds `s.startsWith('pg_')` on a string. -/
def startsWithPg (s : String) : Bool :=
  match s.data with
  | 'p' :: 'g' :: '_' :: _ => true
  | _ => false

/-- Embeds `s.endsWith(',')` on a string. -/
def endsWithComma (s : String) : Bool :=
  match s.data.getLast? with
  | some ',' => true
  | _ => false

/-- Embeds `escapeJsComment`: replace every occurrence of `*/` with `(star)/`. -/
def escapeJsComment (s : String) : String :=
  String.intercalate "(star)/" ((splitStarSlash s.data).map String.mk)

/-- The single step of `toTsName`'s regex `/_+([a-z])/g` replacement: a
maximal run of underscores followed by a lowercase ASCII letter collapses to
that letter uppercased; any other underscore run is kept verbatim.  The
accumulator counts the underscores of the run currently being scanned. -/
def camelStep : Nat → List Char → List Char
  | undCount, [] => List.replicate undCount '_'
  | undCount, c :: rest =>
    if c = '_' then camelStep (undCount + 1) rest
    else if 0 < undCount then
      (if c.isLower then c.toUpper :: camelStep 0 rest
       else List.replicate undCount '_' ++ c :: camelStep 0 rest)
    else c :: camelStep 0 rest

/-- Embeds `toTsName`: uppercase the first character and camel-case the rest via
the `/_+([a-z])/g` replacement. -/
def toTsName (s : String) : String :=
  match s.data with
  | [] => ""
  | c :: rest => String.mk (c.toUpper :: camelStep 0 rest)

/-- Embeds `toJsDoc(text, indent, noEnclose)`. -/
def toJsDoc (text indent : String) (noEnclose : Bool) : String :=
  let body := indent ++ " * " ++
    String.intercalate ("\n" ++ indent ++ " * ")
      ((splitOnChar '\n' (escapeJsComment text).data).map String.mk)
  if noEnclose then body else indent ++ "/**\n" ++ body ++ "\n" ++ indent ++ " */"

/-- Embeds `toConvoComment(text, indent)`. -/
def toConvoComment (text indent : String) : String :=
  indent ++ "# " ++ String.intercalate ("\n" ++ indent ++ "# ")
    ((splitOnChar '\n' text.data).map String.mk)

/-- Embeds `removeSqlComments`: trim each line, drop `--` lines, re-join, trim. -/
def removeSqlComments (text : String) : String :=
  strTrim (String.intercalate "\n"
    (((splitOnChar '\n' text.data).map (fun l => strTrim (String.mk l))).filter
      (fun l => !(startsDashDash l.data))))

/-- Embeds `removeTrailingComma`. -/
def removeTrailingComma (text : String) : String :=
  if endsWithComma text then strTrim (String.mk (text.data.take (text.data.length - 1)))
  else text

/-- JS `toLowerCase` (ASCII model). -/
def jsToLower (s : String) : String := String.mk (s.data.map Char.toLower)

/-- Lowercase hex digit for a value `< 16`. -/
def hexDigitChar (n : Nat) : Char :=
  if n < 10 then Char.ofNat ('0'.toNat + n) else Char.ofNat ('a'.toNat + n - 10)

/-- Embeds `JSON.stringify` escaping of a single character. -/
def jsonEscChar (c : Char) : List Char :=
  if c = '"' then ['\\', '"']
  else if c = '\\' then ['\\', '\\']
  else if c = '\n' then ['\\', 'n']
  else if c = '\t' then ['\\', 't']
  else if c = '\r' then ['\\', 'r']
  else if c = '\x08' then ['\\', 'b']
  else if c = '\x0c' then ['\\', 'f']
  else if c.toNat < 32 then
    ['\\', 'u', '0', '0', hexDigitChar (c.toNat / 16), hexDigitChar (c.toNat % 16)]
  else [c]

/-- Embeds `JSON.stringify` of a string value. -/
def jsonQuote (s : String) : String :=
  String.mk ('"' :: (s.data.map jsonEscChar).flatten ++ ['"'])

/-- Embeds `n.toString().padStart(3, '0')` for the sort-key construction. -/
def padStart3 (s : String) : String :=
  if 3 ≤ s.length then s
  else String.mk (List.replicate (3 - s.length) '0') ++ s

/-! ## The parsed declaration tree (src/src/pg-types.js)

`pgsql-parser` nodes are modelled by a tagged variant: the accessors of
pg-types.js (`getPgColumnDef`, `getPgConstraint`, `getPgString`) each probe
for one wrapper key and return `undefined` otherwise. -/

mutual
/-- A node of the parsed declaration tree (`Pg.Node`). -/
inductive PgNode where
  | columnNode (c : PgColumnDef)
  | constraintNode (c : PgConstraint)
  | stringNode (sval : String)
  | otherNode

/-- Embeds `Pg.ColumnDef` (the fields the generator reads). -/
inductive PgColumnDef where
  | mk (colname : Option String) (typeName : Option PgTypeName)
       (constraints : Option (List PgNode)) (location : Int)

/-- Embeds `Pg.Constraint` (the fields the generator reads). -/
inductive PgConstraint where
  | mk (contype : String) (keys : Option (List PgNode)) (location : Int)

/-- Embeds `Pg.TypeName`: the qualified name parts and one array-bound entry per
bracket level of the declared type. -/
inductive PgTypeName where
  | mk (names : Option (List PgNode)) (arrayBounds : Option (List Int))
end

def PgColumnDef.colname : PgColumnDef → Option String
  | .mk v _ _ _ => v

def PgColumnDef.typeName : PgColumnDef → Option PgTypeName
  | .mk _ v _ _ => v

def PgColumnDef.constraints : PgColumnDef → Option (List PgNode)
  | .mk _ _ v _ => v

def PgColumnDef.location : PgColumnDef → Int
  | .mk _ _ _ v => v

def PgConstraint.contype : PgConstraint → String
  | .mk v _ _ => v

def PgConstraint.keys : PgConstraint → Option (List PgNode)
  | .mk _ v _ => v

def PgConstraint.location : PgConstraint → Int
  | .mk _ _ v => v

def PgTypeName.names : PgTypeName → Option (List PgNode)
  | .mk v _ => v

def PgTypeName.arrayBounds : PgTypeName → Option (List Int)
  | .mk _ v => v

/-- Embeds `getPgString`. -/
def getPgString : PgNode → Option String
  | .stringNode s => some s
  | _ => none

/-- Embeds `getPgStrings`. -/
def getPgStrings (nodes : Option (List PgNode)) : List String :=
  match nodes with
  | none => []
  | some ns => ns.filterMap getPgString

/-- Embeds `getFirstPgString`. -/
def getFirstPgString (nodes : Option (List PgNode)) : Option String :=
  match nodes with
  | none => none
  | some ns => ns.findSome? getPgString

/-- Embeds `getPgColumnDef`. -/
def getPgColumnDef : PgNode → Option PgColumnDef
  | .columnNode c => some c
  | _ => none

/-- Embeds `getPgConstraint`. -/
def getPgConstraint : PgNode → Option PgConstraint
  | .constraintNode c => some c
  | _ => none

/-- Embeds `getPgConstraints`. -/
def getPgConstraints (nodes : Option (List PgNode)) : List PgConstraint :=
  match nodes with
  | none => []
  | some ns => ns.filterMap getPgConstraint

/-- The scanning loop of `getPgTypeName`: return the first truthy name that
does not start with `pg_`; otherwise remember the last truthy `pg_` name. -/
def pgTypeNameLoop : List PgNode → Option String → Option String
  | [], acc => acc
  | n :: rest, acc =>
    match getPgString n with
    | none => pgTypeNameLoop rest acc
    | some s =>
      if s = "" then pgTypeNameLoop rest acc
      else if startsWithPg s then pgTypeNameLoop rest (some s)
      else some s

/-- Embeds `getPgTypeName`. -/
def getPgTypeName (t : Option PgTypeName) : Option String :=
  match t with
  | none => none
  | some tn =>
    match tn.names with
    | none => none
    | some ns => pgTypeNameLoop ns none

/-- A raw parsed statement (`Pg.RawStmt`): the statement node plus its
source location and length. -/
inductive PgStmtNode where
  | createStmt (relname : Option String) (schemaname : Option String)
      (tableElts : Option (List PgNode))
  | createEnumStmt (typeName : Option (List PgNode)) (vals : Option (List PgNode))
  | otherStmt

structure PgRawStmt where
  stmt : PgStmtNode
  stmt_location : Option Int := none
  stmt_len : Option Int := none

/-- The normalised table declaration produced by `getPgCreateTable`. -/
structure PgCreateTable where
  name : String
  schema : Option String
  location : Int
  endLocation : Int
  tableElts : List PgNode
  constraintList : List PgConstraint

/-- The normalised enum declaration produced by `getPgCreateEnum`. -/
structure PgCreateEnum where
  name : String
  location : Int
  vals : List PgNode

/-- Embeds `getPgCreateTable`: accept a `CreateStmt` with a (truthy) relation name
and a `tableElts` list, pre-extracting the table-level constraint list. -/
def getPgCreateTable (st : PgRawStmt) : Option PgCreateTable :=
  match st.stmt with
  | .createStmt relname schemaname tableElts =>
    match tableElts, relname with
    | some elts, some nm =>
      if nm = "" then none
      else some
        { name := nm
          schema := schemaname
          tableElts := elts
          constraintList := getPgConstraints (some elts)
          location := st.stmt_location.getD 0
          endLocation := st.stmt_location.getD 0 + st.stmt_len.getD 0 }
    | _, _ => none
  | _ => none

/-- Embeds `getPgCreateEnum`: accept a `CreateEnumStmt` with a (truthy) first name
part and a values list. -/
def getPgCreateEnum (st : PgRawStmt) : Option PgCreateEnum :=
  match st.stmt with
  | .createEnumStmt typeName vals =>
    match getFirstPgString typeName, vals with
    | some nm, some vs =>
      if nm = "" then none
      else some { name := nm, location := st.stmt_location.getD 0, vals := vs }
    | _, _ => none
  | _ => none

/-! ## The type model (src/unnamed/part_002, typedefs at lines 41-90)

JS objects used as string-keyed maps (`typeMap`, `tableMap.toName`,
`tableMap.toTable`) are association lists with JS assignment semantics. -/

/-- Look up a key in a JS object modelled as an association list. -/
def objGet {α : Type} (m : List (String × α)) (k : String) : Option α :=
  (m.find? (fun e => e.1 = k)).map (fun e => e.2)

/-- JS assignment `m[k] = v`: overwrite in place if the key exists
(keeping its insertion position), otherwise append. -/
def objSet {α : Type} (m : List (String × α)) (k : String) (v : α) : List (String × α) :=
  if m.any (fun e => e.1 = k) then m.map (fun e => if e.1 = k then (k, v) else e)
  else m ++ [(k, v)]

/-- Embeds `'type' | 'enum'`. -/
inductive TKind where
  | type
  | enum
deriving DecidableEq, Repr

/-- Embeds `TypeMapping`. -/
structure TypeMapping where
  name : String
  ts : Option String := none
  zod : Option String := none
  convo : Option String := none
  sql : Option String := none
deriving DecidableEq, Repr

/-- Embeds `PropDef` (absent JS fields are `none`; the generator only ever writes
`true` into the boolean fields, `undefined` otherwise). -/
structure PropDef where
  name : String
  type : TypeMapping
  primary : Option Bool := none
  description : Option String := none
  sqlDef : Option String := none
  optional : Option Bool := none
  hasDefault : Option Bool := none
  isArray : Option Bool := none
  arrayDimensions : Option Nat := none
deriving DecidableEq, Repr

/-- Embeds `TypeDef`. -/
structure TypeDef where
  name : String
  description : Option String := none
  type : TKind
  primaryKey : Option String := none
  sqlTable : Option String := none
  sqlSchema : Option String := none
  props : List PropDef := []
deriving DecidableEq, Repr

/-- Embeds `SrcType`: a rendered output block (the `props` field is initialised to
`[]` in part_002 and never written). -/
structure SrcType where
  name : String
  baseName : String
  src : List String
  type : TKind
  order : Nat
  props : List PropDef := []
deriving DecidableEq, Repr

/-- The `typeMap` object. -/
abbrev TypeMapObj := List (String × TypeMapping)

/-- Embeds `defaultTypeMap` (part_002 lines 92-146), in source insertion order. -/
def defaultTypeMap : TypeMapObj :=
  [ ("_default", { name := "string" })
  , ("text", { name := "string" })
  , ("int", { name := "number", zod := some "z.number().int()" })
  , ("int2", { name := "number", zod := some "z.number().int()" })
  , ("int4", { name := "number", zod := some "z.number().int()" })
  , ("int8", { name := "number", zod := some "z.number().int()" })
  , ("float", { name := "number" })
  , ("float4", { name := "number" })
  , ("float8", { name := "number" })
  , ("numeric", { name := "number" })
  , ("json", { name := "json", ts := some "Record<string,any>"
             , zod := some "z.record(z.string(),z.any())", convo := some "map" })
  , ("jsonb", { name := "json", ts := some "Record<string,any>"
              , zod := some "z.record(z.string(),z.any())", convo := some "map" })
  , ("bool", { name := "boolean" })
  , ("boolean", { name := "boolean" }) ]

/-- Embeds `typeMap[key] ?? typeMap['_default'] ?? {name:'string'}` (part_002
line 594); `key` is the already-lowercased declared type name. -/
def resolveTypeMapping (tm : TypeMapObj) (k : String) : TypeMapping :=
  (objGet tm k).getD ((objGet tm "_default").getD { name := "string" })

/-- The four-space `indent` of part_002. -/
def indentStr : String := "    "

/-- JS `s.repeat(n)`. -/
def strRepeat (s : String) (n : Nat) : String :=
  String.join (List.replicate n s)

/-- Normalise a JS string-or-undefined to its truthy value
(`'' || undefined === undefined`). -/
def optTruthy (o : Option String) : Option String :=
  match o with
  | some s => if s = "" then none else some s
  | none => none

/-! ## `createType` (part_002 lines 504-658) -/

/-- Embeds `constraints.some(c=>c.contype==='CONSTR_NOTNULL')` (line 583). -/
def columnNotNull (c : PgColumnDef) : Bool :=
  (getPgConstraints c.constraints).any (fun k => k.contype == "CONSTR_NOTNULL")

/-- Inline or table-level primary-key detection (lines 584-587). -/
def columnIsPrimary (s : PgCreateTable) (c : PgColumnDef) (prop : String) : Bool :=
  (getPgConstraints c.constraints).any (fun k => k.contype == "CONSTR_PRIMARY") ||
  s.constraintList.any (fun k =>
    k.contype == "CONSTR_PRIMARY" && (getPgStrings k.keys).contains prop)

/-- Embeds `constraints.some(c=>c.contype==='CONSTR_DEFAULT')` (line 588). -/
def columnHasDefault (c : PgColumnDef) : Bool :=
  (getPgConstraints c.constraints).any (fun k => k.contype == "CONSTR_DEFAULT")

/-- Embeds `c.typeName?.arrayBounds?.length ?? 0` (line 577). -/
def columnArrayDepth (c : PgColumnDef) : Nat :=
  match c.typeName with
  | none => 0
  | some t =>
    match t.arrayBounds with
    | none => 0
    | some bs => bs.length

/-- Embeds `next?.location ?? s.endLocation` where
`next = getPgColumnDef(elts[ti+1]) ?? getPgConstraint(elts[ti+1])`
(lines 623, 634-636). -/
def columnNextLocation (s : PgCreateTable) (nextItem : Option PgNode) : Int :=
  match nextItem with
  | none => s.endLocation
  | some n =>
    match getPgColumnDef n with
    | some cd => cd.location
    | none =>
      match getPgConstraint n with
      | some k => k.location
      | none => s.endLocation

/-- Embeds `array(...)` wrapping of a convo property (lines 606-608). -/
def wrapArray : Nat → String → String
  | 0, s => s
  | n + 1, s => wrapArray n ("array(" ++ s ++ ")")

/-- The loop body of `createType` for one eligible column (lines 576-642):
the `PropDef` plus the rendered TypeScript, Zod, and convo source lines. -/
def columnResult (s : PgCreateTable) (forInsert : Bool) (sql : List Char)
    (typeMap : TypeMapObj) (c : PgColumnDef) (prop : String) (dataType : String)
    (nextItem : Option PgNode) :
    PropDef × List String × List String × List String :=
  let arrayDepth := columnArrayDepth c
  let notNull := columnNotNull c
  let isPrimary := columnIsPrimary s c prop
  let hasDefault := columnHasDefault c
  let required := if forInsert then (notNull || isPrimary) && !hasDefault
                  else notNull || isPrimary
  let optional := !required
  let sqlType := dataType
  let mt := resolveTypeMapping typeMap (jsToLower sqlType)
  let description : Option String :=
    optTruthy (if c.location ≠ 0 ∧ forInsert = false
               then (findComment sql c.location false).map String.mk else none)
  let tsLines : List String :=
    (match description with
     | some d => [toJsDoc d indentStr false ++ "\n"]
     | none => []) ++
    [indentStr ++ prop ++ (if optional then "?" else "") ++ ":" ++
      (mt.ts.getD mt.name) ++ strRepeat "[]" arrayDepth ++ ";\n"]
  let convoLines : List String :=
    (match description with
     | some d => [toConvoComment d indentStr ++ "\n"]
     | none => []) ++
    [wrapArray arrayDepth
      (indentStr ++ prop ++ (if optional then "?" else "") ++ ": " ++
        (mt.convo.getD mt.name)) ++ "\n"]
  let zodProp :=
    (mt.zod.getD ("z." ++ mt.name ++ "()")) ++
    (if optional then ".optional()" else "") ++
    strRepeat ".array()" arrayDepth ++
    (match description with
     | some d => ".describe(" ++ jsonQuote d ++ ")"
     | none => "")
  let zodLines : List String := [indentStr ++ prop ++ ":" ++ zodProp ++ ",\n"]
  let propDef : PropDef :=
    { name := prop
      type := { mt with ts := some (mt.ts.getD mt.name), sql := some sqlType }
      primary := if isPrimary then some true else none
      description := description
      sqlDef := if c.location ≠ 0
        then some (removeTrailingComma (removeSqlComments
          (String.mk (jsSubstring sql c.location (columnNextLocation s nextItem)))))
        else none
      optional := if optional then some true else none
      hasDefault := if hasDefault then some true else none
      isArray := if arrayDepth ≠ 0 then some true else none
      arrayDimensions := if arrayDepth = 0 then none else some arrayDepth }
  (propDef, tsLines, zodLines, convoLines)

/-- The columns of `s.tableElts` that survive the loop's `continue` guards
(lines 566-581): a present `ColumnDef` with a truthy `colname` and a truthy
resolved type name, paired with the following `tableElts` entry. -/
def eligibleColumns (s : PgCreateTable) :
    List (PgColumnDef × String × String × Option PgNode) :=
  (List.range s.tableElts.length).filterMap (fun ti =>
    match s.tableElts[ti]? with
    | none => none
    | some item =>
      match getPgColumnDef item with
      | none => none
      | some c =>
        match c.colname with
        | none => none
        | some prop =>
          if prop = "" then none
          else
            match getPgTypeName c.typeName with
            | none => none
            | some dataType =>
              if dataType = "" then none
              else some (c, prop, dataType, s.tableElts[ti + 1]?))

/-- All column results of one `createType` invocation, in column order. -/
def tableColumnResults (s : PgCreateTable) (forInsert : Bool) (sql : List Char)
    (typeMap : TypeMapObj) : List (PropDef × List String × List String × List String) :=
  (eligibleColumns s).map (fun e => columnResult s forInsert sql typeMap e.1 e.2.1 e.2.2.1 e.2.2.2)

/-- The `PropDef` list of one `createType` invocation. -/
def tableProps (s : PgCreateTable) (forInsert : Bool) (sql : List Char)
    (typeMap : TypeMapObj) : List PropDef :=
  (tableColumnResults s forInsert sql typeMap).map (fun r => r.1)

/-- Embeds `s.location && !forInsert ? findComment(sql, s.location, true) : undefined`
(line 523). -/
def tableHeaderDescription (s : PgCreateTable) (forInsert : Bool) (sql : List Char) :
    Option String :=
  if s.location ≠ 0 ∧ forInsert = false
  then (findComment sql s.location true).map String.mk else none

/-- The `TypeDef` record constructed by one `createType` invocation
(lines 526-533, 625-642, 654). -/
def tableTypeDef (s : PgCreateTable) (forInsert : Bool) (insertSuffix : String)
    (sql : List Char) (typeMap : TypeMapObj) : TypeDef :=
  let baseName := toTsName s.name
  let name := baseName ++ (if forInsert then insertSuffix else "")
  let props := tableProps s forInsert sql typeMap
  { name := name
    type := .type
    description := tableHeaderDescription s forInsert sql
    sqlTable := some s.name
    sqlSchema := s.schema
    props := props
    primaryKey := (props.find? (fun p => p.primary == some true)).map (fun p => p.name) }

/-- The shared doc-block header pushed into `tsType.src`
(lines 543-558). -/
def tableTsHeader (s : PgCreateTable) (forInsert : Bool) (sql : List Char) :
    List String :=
  let baseName := toTsName s.name
  ["/**\n"] ++
  (match optTruthy (tableHeaderDescription s forInsert sql) with
   | some d => [toJsDoc d "" true ++ "\n"]
   | none => []) ++
  (if forInsert then [" * @insertFor " ++ baseName ++ "\n"] else []) ++
  [" * @table " ++ s.name ++ "\n"] ++
  (match optTruthy s.schema with
   | some sc => [" * @schema " ++ sc ++ "\n"]
   | none => []) ++
  [" */\n"]

/-- The convo comment header (lines 546, 551, 553, 556). -/
def tableConvoHeader (s : PgCreateTable) (forInsert : Bool) (sql : List Char) :
    List String :=
  let baseName := toTsName s.name
  (match optTruthy (tableHeaderDescription s forInsert sql) with
   | some d => [toConvoComment d "" ++ "\n"]
   | none => []) ++
  (if forInsert then ["# insertFor: " ++ baseName ++ "\n"] else []) ++
  ["# table: " ++ s.name ++ "\n"] ++
  (match optTruthy s.schema with
   | some sc => ["# schema: " ++ sc ++ "\n"]
   | none => [])

/-- The Zod header: the ts header with the element at index 1 spliced to
the schema banner line (lines 559-560). -/
def tableZodHeader (s : PgCreateTable) (forInsert : Bool) (insertSuffix : String)
    (sql : List Char) : List String :=
  let name := toTsName s.name ++ (if forInsert then insertSuffix else "")
  let hdr := tableTsHeader s forInsert sql
  let hasDesc := (optTruthy (tableHeaderDescription s forInsert sql)).isSome
  hdr.take 1 ++ [" * Zod schema for the \"" ++ name ++ "\" interface\n"] ++
    hdr.drop (if hasDesc then 2 else 1)

/-- The TypeScript `SrcType` produced by one `createType` invocation. -/
def tableTsSrc (s : PgCreateTable) (forInsert : Bool) (insertSuffix : String)
    (sql : List Char) (typeMap : TypeMapObj) : SrcType :=
  let baseName := toTsName s.name
  let name := baseName ++ (if forInsert then insertSuffix else "")
  { name := name, baseName := baseName, type := .type, order := 2
    src := tableTsHeader s forInsert sql ++
      ["export interface " ++ name ++ "\n\x7b\n"] ++
      (tableColumnResults s forInsert sql typeMap).flatMap (fun r => r.2.1) ++
      ["\x7d"] }

/-- The Zod `SrcType` produced by one `createType` invocation. -/
def tableZodSrc (s : PgCreateTable) (forInsert : Bool) (insertSuffix : String)
    (sql : List Char) (typeMap : TypeMapObj) : SrcType :=
  let baseName := toTsName s.name
  let name := baseName ++ (if forInsert then insertSuffix else "")
  { name := name, baseName := baseName, type := .type, order := 2
    src := tableZodHeader s forInsert insertSuffix sql ++
      ["export const " ++ name ++ "Schema=z.object(\x7b\n"] ++
      (tableColumnResults s forInsert sql typeMap).flatMap (fun r => r.2.2.1) ++
      ["\x7d)" ++
        (match optTruthy (tableHeaderDescription s forInsert sql) with
         | some d => ".describe(" ++ jsonQuote d ++ ")"
         | none => "") ++ ";"] }

/-- The convo `SrcType` produced by one `createType` invocation. -/
def tableConvoSrc (s : PgCreateTable) (forInsert : Bool) (insertSuffix : String)
    (sql : List Char) (typeMap : TypeMapObj) : SrcType :=
  let baseName := toTsName s.name
  let name := baseName ++ (if forInsert then insertSuffix else "")
  { name := name, baseName := baseName, type := .type, order := 2
    src := tableConvoHeader s forInsert sql ++
      [name ++ " = struct(\n"] ++
      (tableColumnResults s forInsert sql typeMap).flatMap (fun r => r.2.2.2) ++
      [")"] }

/-- The mutable run state threaded through `createType` / `createEnum`. -/
structure BuildState where
  toName : List (String × String) := []
  toTable : List (String × String) := []
  typeDefs : List TypeDef := []
  tsTypes : List SrcType := []
  zodTypes : List SrcType := []
  convoTypes : List SrcType := []
deriving DecidableEq, Repr

/-- One `createType` invocation (part_002 lines 504-658): register the
table/name map entries, append the three rendered `SrcType`s, and (for the
read shape only) append the `TypeDef`. -/
def createType (s : PgCreateTable) (forInsert : Bool) (insertSuffix : String)
    (sql : List Char) (typeMap : TypeMapObj) (st : BuildState) : BuildState :=
  let baseName := toTsName s.name
  let name := baseName ++ (if forInsert then insertSuffix else "")
  { toName := if forInsert then st.toName else objSet st.toName s.name name
    toTable := objSet st.toTable name s.name
    typeDefs := if forInsert then st.typeDefs
      else st.typeDefs ++ [tableTypeDef s forInsert insertSuffix sql typeMap]
    tsTypes := st.tsTypes ++ [tableTsSrc s forInsert insertSuffix sql typeMap]
    zodTypes := st.zodTypes ++ [tableZodSrc s forInsert insertSuffix sql typeMap]
    convoTypes := st.convoTypes ++ [tableConvoSrc s forInsert insertSuffix sql typeMap] }

/-- The two `createType` calls per table statement (part_002
lines 281-282): read shape first, insertion shape second. -/
def processTable (s : PgCreateTable) (insertSuffix : String) (sql : List Char)
    (typeMap : TypeMapObj) (st : BuildState) : BuildState :=
  createType s true insertSuffix sql typeMap
    (createType s false insertSuffix sql typeMap st)

/-! ## `createEnum` (part_002 lines 682-745) -/

/-- The synthetic type-mapping entry registered for an enum (lines 694-697). -/
def enumTypeMapping (sqlName : String) : TypeMapping :=
  { name := toTsName sqlName, zod := some (toTsName sqlName ++ "Schema") }

/-- Embeds `s.location ? findComment(sql, s.location, true) : undefined`
(line 699). -/
def enumHeaderDescription (s : PgCreateEnum) (sql : List Char) : Option String :=
  if s.location ≠ 0 then (findComment sql s.location true).map String.mk else none

/-- The `TypeDef` of an enum declaration (line 702). -/
def enumTypeDef (s : PgCreateEnum) (sql : List Char) : TypeDef :=
  { name := toTsName s.name, type := .enum
    description := enumHeaderDescription s sql, props := [] }

/-- One `createEnum` invocation: register the synthetic type mapping and
append the enum's `TypeDef` and rendered `SrcType`s. -/
def createEnum (s : PgCreateEnum) (sql : List Char) (typeMap : TypeMapObj)
    (st : BuildState) : TypeMapObj × BuildState :=
  let sqlName := s.name
  let name := toTsName sqlName
  let typeMap' := objSet typeMap sqlName (enumTypeMapping sqlName)
  let td := optTruthy (enumHeaderDescription s sql)
  let values := (getPgStrings (some s.vals)).map jsonQuote
  let tsSrc : List String :=
    (match td with
     | some d => ["/**\n", toJsDoc d "" true ++ "\n", " */\n"]
     | none => []) ++
    ["export type " ++ name ++ "="] ++
    [String.intercalate "|" values] ++ [";"]
  let zodSrc : List String :=
    ["/**\n"] ++
    (match td with
     | some d => [toJsDoc d "" true ++ "\n"]
     | none => []) ++
    [" * Zod schema for the \"" ++ name ++ "\" union\n", " */\n"] ++
    ["export const " ++ name ++ "Schema=z.enum(["] ++
    [String.intercalate "," values] ++
    ["])" ++
      (match td with
       | some d => ".describe(" ++ jsonQuote d ++ ")"
       | none => "") ++ ";"]
  let convoSrc : List String :=
    (match td with
     | some d => [toConvoComment d "" ++ "\n"]
     | none => []) ++
    [name ++ " = enum("] ++
    [String.intercalate " " values] ++ [")"]
  (typeMap',
   { st with
     typeDefs := st.typeDefs ++ [enumTypeDef s sql]
     tsTypes := st.tsTypes ++
       [{ name := name, baseName := name, src := tsSrc, type := .enum, order := 1 }]
     zodTypes := st.zodTypes ++
       [{ name := name, baseName := name, src := zodSrc, type := .enum, order := 1 }]
     convoTypes := st.convoTypes ++
       [{ name := name, baseName := name, src := convoSrc, type := .enum, order := 1 }] })

/-! ## The two-phase main walk (part_002 lines 267-283) -/

/-- Phase one: `// Search for enums first` — every statement that parses as
an enum declaration is processed, mutating the type map. -/
def runEnumPhase (stmts : List PgRawStmt) (sql : List Char) (tm : TypeMapObj)
    (st : BuildState) : TypeMapObj × BuildState :=
  stmts.foldl (fun acc stm =>
    match getPgCreateEnum stm with
    | some e => createEnum e sql acc.1 acc.2
    | none => acc) (tm, st)

/-- Phase two: every statement that parses as a table declaration is
processed against the type map left by phase one. -/
def runTablePhase (stmts : List PgRawStmt) (insertSuffix : String) (sql : List Char)
    (tm : TypeMapObj) (st : BuildState) : BuildState :=
  stmts.foldl (fun st stm =>
    match getPgCreateTable stm with
    | some t => processTable t insertSuffix sql tm st
    | none => st) st

/-- The full statement walk of `main`: all enums, then all tables. -/
def runStatements (stmts : List PgRawStmt) (insertSuffix : String) (sql : List Char)
    (tm0 : TypeMapObj) : TypeMapObj × BuildState :=
  let r := runEnumPhase stmts sql tm0 {}
  (r.1, runTablePhase stmts insertSuffix sql r.1 r.2)

/-! ## Sorting and emission (part_002 lines 453-490, 663-671) -/

/-- Lexicographic comparison of character lists, modelling
`String.prototype.localeCompare` over the generator's ASCII sort keys. -/
def lexCompare : List Char → List Char → Ordering
  | [], [] => .eq
  | [], _ :: _ => .lt
  | _ :: _, [] => .gt
  | a :: as, b :: bs =>
    if a < b then .lt else if b < a then .gt else lexCompare as bs

/-- Embeds `srcTypeOrderName` (line 671):
`order.toString().padStart(3,'0') + '_' + baseName`. -/
def srcTypeOrderName (t : SrcType) : String :=
  padStart3 (Nat.repr t.order) ++ "_" ++ t.baseName

/-- The comparator of `typesToString`'s sort, as a `≤`-style switch. -/
def srcTypeLe (a b : SrcType) : Bool :=
  match lexCompare (srcTypeOrderName a).data (srcTypeOrderName b).data with
  | .gt => false
  | _ => true

/-- The sorted render order of `typesToString` (JS `Array.prototype.sort`
is stable; `List.mergeSort` models it). -/
def sortSrcTypes (l : List SrcType) : List SrcType :=
  l.mergeSort srcTypeLe

/-- Embeds `typesToString` (lines 663-666). -/
def typesToString (l : List SrcType) : String :=
  String.intercalate "\n\n" ((sortSrcTypes l).map (fun t => String.join t.src))

/-- Name-keyed `≤`-switch used by `sortObj` on arrays of named records. -/
def nameLe {α : Type} (name : α → String) (a b : α) : Bool :=
  match lexCompare (name a).data (name b).data with
  | .gt => false
  | _ => true

/-- The observable effect of `sortObj(typeDefs)` (lines 285, 453-490) on the
type-def list: every inner `props` array (all of whose records are named)
is sorted by name, and the outer array is sorted by name.  The key
reordering inside each serialized object is part of the excluded JSON
serialization layer. -/
def sortObjTypeDefs (l : List TypeDef) : List TypeDef :=
  (l.map (fun t => { t with props := t.props.mergeSort (nameLe PropDef.name) })).mergeSort
    (nameLe TypeDef.name)

/-- The artifacts whose contents the core computes (file writing and JSON
serialization are the excluded I/O layer). -/
structure PipelineArtifacts where
  tsFile : String
  zodFile : String
  convoFile : String
  typeDefsOut : List TypeDef
  typeMapOut : TypeMapObj
  toName : List (String × String)
  toTable : List (String × String)
deriving DecidableEq, Repr

/-- The pure pipeline of `main` after argument handling: walk the
statements (enums first), sort, and render every artifact, including the
fixed heads prepended by `writeAryAsync`. -/
def runPipeline (stmts : List PgRawStmt) (sql : List Char) (insertSuffix : String)
    (typeMap0 : TypeMapObj) : PipelineArtifacts :=
  let r := runStatements stmts insertSuffix sql typeMap0
  { tsFile := typesToString r.2.tsTypes
    zodFile := "import \x7b z \x7d from \"zod\";\n\n" ++ typesToString r.2.zodTypes
    convoFile := "> define\n\n" ++ typesToString r.2.convoTypes
    typeDefsOut := sortObjTypeDefs r.2.typeDefs
    typeMapOut := r.1
    toName := r.2.toName
    toTable := r.2.toTable }

/-! ## The array-type unwrapping loop of the older variant
(src/unnamed/part_003, lines 360-375) -/

/-- Embeds `pgsql-ast-parser` data types: a basic name or an array wrapper. -/
inductive AstDataType where
  | basic (name : String)
  | array (arrayOf : AstDataType)

/-- The `while(dataType.kind==='array')` loop: count the unwrapped levels
and return the innermost data type's name. -/
def unwrapArrayLoop : Nat → AstDataType → Nat × String
  | n, .array inner => unwrapArrayLoop (n + 1) inner
  | n, .basic nm => (n, nm)

/-- Specification-side bracket-level count of a declared type. -/
def astArrayDepth : AstDataType → Nat
  | .array inner => astArrayDepth inner + 1
  | .basic _ => 0

/-- Specification-side innermost non-array type name. -/
def astInnerName : AstDataType → String
  | .array inner => astInnerName inner
  | .basic nm => nm

/-! ## Type-map override files (part_002 lines 205-219)

A model of the JSON values a `--type-map-file` parses to, with the JS
truthiness / `typeof` semantics of the guard
`if(!map || (typeof map !== 'object')) throw ...`. -/

inductive JsonValue where
  | null
  | bool (b : Bool)
  | num (n : Int)
  | str (s : String)
  | arr (xs : List JsonValue)
  | obj (fields : List (String × JsonValue))

/-- JS falsiness of a parsed JSON value. -/
def jsFalsy : JsonValue → Bool
  | .null => true
  | .bool b => !b
  | .num n => n == 0
  | .str s => s == ""
  | _ => false

/-- JS `typeof` of a parsed JSON value (`typeof null === 'object'`,
`typeof [] === 'object'`). -/
def jsTypeof : JsonValue → String
  | .null => "object"
  | .bool _ => "boolean"
  | .num _ => "number"
  | .str _ => "string"
  | .arr _ => "object"
  | .obj _ => "object"

/-- The acceptance guard: `!(!map || typeof map !== 'object')`. -/
def typeMapFileOk (v : JsonValue) : Bool :=
  !(jsFalsy v) && (jsTypeof v == "object")

/-- Embeds `for (const type in map)`: own enumerable keys — object fields in
insertion order, array indices for arrays, nothing for primitives. -/
def forInKeys : JsonValue → List (String × JsonValue)
  | .obj fs => fs
  | .arr xs => ((List.range xs.length).zip xs).map (fun p => (Nat.repr p.1, p.2))
  | _ => []

/-- JS object-spread `{...a}` of an arbitrary value: object fields, array
index entries, string index entries, nothing for other primitives. -/
def spreadFields : JsonValue → List (String × JsonValue)
  | .obj fs => fs
  | .arr xs => ((List.range xs.length).zip xs).map (fun p => (Nat.repr p.1, p.2))
  | .str s => ((List.range s.data.length).zip s.data).map
      (fun p => (Nat.repr p.1, JsonValue.str (String.mk [p.2])))
  | _ => []

/-- Embeds `{...typeMap[type], ...map[type]}`: shallow merge, later keys override. -/
def jsSpread2 (a : Option JsonValue) (b : JsonValue) : JsonValue :=
  .obj ((spreadFields b).foldl (fun m kv => objSet m kv.1 kv.2)
    (match a with
     | some v => spreadFields v
     | none => []))

/-- Merge one accepted override file into the accumulated type map
(lines 212-217). -/
def mergeTypeMapFile (tm : List (String × JsonValue)) (v : JsonValue) :
    List (String × JsonValue) :=
  (forInKeys v).foldl (fun tm kv => objSet tm kv.1 (jsSpread2 (objGet tm kv.1) kv.2)) tm

/-- Process the override files in argument order, aborting with the
configuration error on the first value rejected by the guard
(lines 206-219). -/
def loadTypeMapFiles (files : List JsonValue) (tm : List (String × JsonValue)) :
    Except String (List (String × JsonValue)) :=
  files.foldlM (fun tm v =>
    if typeMapFileOk v then Except.ok (mergeTypeMapFile tm v)
    else Except.error "type map file should contain a JSON object") tm

/-! # Theorems -/

/-- Claim C1. For every table column, the generated read-shape property is
required exactly when the column is declared not-null or is the primary
key, and the generated insertion-shape property is required exactly when
the column is declared not-null or primary key and lacks a default-value
clause; in every other case the property is optional.  In particular, a
column with a default-value clause that is also not-null or primary-key is
required in the read shape and optional in the insertion shape.  (A
property is required when its `optional` field is left unset.) -/
theorem c1_required_optional_rule
    (s : PgCreateTable) (sql : List Char) (tm : TypeMapObj)
    (c : PgColumnDef) (prop dataType : String) (next : Option PgNode)
    (_hmem : (c, prop, dataType, next) ∈ eligibleColumns s) :
    (((columnResult s false sql tm c prop dataType next).1.optional = none) ↔
      (columnNotNull c = true ∨ columnIsPrimary s c prop = true)) ∧
    (((columnResult s true sql tm c prop dataType next).1.optional = none) ↔
      ((columnNotNull c = true ∨ columnIsPrimary s c prop = true) ∧
        columnHasDefault c = false)) ∧
    (columnHasDefault c = true →
      (columnNotNull c = true ∨ columnIsPrimary s c prop = true) →
      (columnResult s false sql tm c prop dataType next).1.optional = none ∧
      (columnResult s true sql tm c prop dataType next).1.optional = some true) := by
  clear _hmem
  refine ⟨?_, ?_, ?_⟩ <;>
    simp only [columnResult] <;>
    cases hnn : columnNotNull c <;>
    cases hpk : columnIsPrimary s c prop <;>
    cases hhd : columnHasDefault c <;>
    simp

/-- A sample column: `id uuid not null default gen_random_uuid()`. -/
def exCol1 : PgColumnDef :=
  .mk (some "id") (some (.mk (some [.stringNode "uuid"]) none))
    (some [.constraintNode (.mk "CONSTR_NOTNULL" none 0),
           .constraintNode (.mk "CONSTR_DEFAULT" none 0)]) 0

/-- A sample table holding `exCol1`. -/
def exTable1 : PgCreateTable :=
  { name := "account", schema := some "public", location := 0, endLocation := 0
    tableElts := [.columnNode exCol1], constraintList := [] }

/-- Witness for C1 at the sample not-null-with-default column. -/
theorem c1_witness :
    (((columnResult exTable1 false [] defaultTypeMap exCol1 "id" "uuid" none).1.optional = none) ↔
      (columnNotNull exCol1 = true ∨ columnIsPrimary exTable1 exCol1 "id" = true)) ∧
    (((columnResult exTable1 true [] defaultTypeMap exCol1 "id" "uuid" none).1.optional = none) ↔
      ((columnNotNull exCol1 = true ∨ columnIsPrimary exTable1 exCol1 "id" = true) ∧
        columnHasDefault exCol1 = false)) ∧
    (columnHasDefault exCol1 = true →
      (columnNotNull exCol1 = true ∨ columnIsPrimary exTable1 exCol1 "id" = true) →
      (columnResult exTable1 false [] defaultTypeMap exCol1 "id" "uuid" none).1.optional = none ∧
      (columnResult exTable1 true [] defaultTypeMap exCol1 "id" "uuid" none).1.optional = some true) :=
  c1_required_optional_rule exTable1 [] defaultTypeMap exCol1 "id" "uuid" none
    (by
      rw [show eligibleColumns exTable1 = [(exCol1, "id", "uuid", none)] from rfl]
      exact List.mem_singleton.mpr rfl)

/-- Every tuple produced by `eligibleColumns` really is an extracted column:
its name is the column's (truthy) `colname` and its type name is the
column's (truthy) resolved declared type name. -/
theorem eligibleColumns_sound {s : PgCreateTable} {c : PgColumnDef}
    {prop dataType : String} {next : Option PgNode}
    (h : (c, prop, dataType, next) ∈ eligibleColumns s) :
    c.colname = some prop ∧ getPgTypeName c.typeName = some dataType ∧
    prop ≠ "" ∧ dataType ≠ "" := by
  unfold eligibleColumns at h
  rw [List.mem_filterMap] at h
  obtain ⟨ti, -, hf⟩ := h
  repeat' split at hf
  all_goals simp_all

/-- The accumulator-passing form of part_003's `while` unwrapping loop
agrees with the structural depth and innermost-name functions. -/
theorem unwrapArrayLoop_eq (n : Nat) (dt : AstDataType) :
    unwrapArrayLoop n dt = (n + astArrayDepth dt, astInnerName dt) := by
  induction dt generalizing n with
  | basic nm => simp [unwrapArrayLoop, astArrayDepth, astInnerName]
  | array inner ih =>
    simp only [unwrapArrayLoop, astArrayDepth, astInnerName, ih]
    rw [Nat.add_assoc, Nat.add_comm 1]

/-- Claim C5. For every column whose declared type carries `N` array-bracket
levels, the resulting `PropDef` records array dimension `N` (recorded as an
absent field when `N = 0`, i.e. scalar), and the type mapping is resolved
by case-lowered lookup of the innermost non-array declared type name.  In
the part_002 model the bracket count is the `arrayBounds` length and the
name list already denotes the innermost type; for the part_003 variant the
`while` unwrapping loop is shown to compute exactly the nesting depth and
the innermost name. -/
theorem c5_array_dimensions
    (s : PgCreateTable) (forInsert : Bool) (sql : List Char) (tm : TypeMapObj)
    (c : PgColumnDef) (prop dataType : String) (next : Option PgNode)
    (hmem : (c, prop, dataType, next) ∈ eligibleColumns s) :
    ((columnResult s forInsert sql tm c prop dataType next).1.arrayDimensions =
      (if columnArrayDepth c = 0 then none else some (columnArrayDepth c))) ∧
    ((columnResult s forInsert sql tm c prop dataType next).1.isArray =
      (if columnArrayDepth c = 0 then none else some true)) ∧
    (getPgTypeName c.typeName = some dataType) ∧
    ((columnResult s forInsert sql tm c prop dataType next).1.type =
      { resolveTypeMapping tm (jsToLower dataType) with
        ts := some ((resolveTypeMapping tm (jsToLower dataType)).ts.getD
          (resolveTypeMapping tm (jsToLower dataType)).name)
        sql := some dataType }) ∧
    (∀ dt : AstDataType, unwrapArrayLoop 0 dt = (astArrayDepth dt, astInnerName dt)) := by
  refine ⟨?_, ?_, (eligibleColumns_sound hmem).2.1, rfl, fun dt => ?_⟩
  · by_cases hz : columnArrayDepth c = 0 <;> simp [columnResult, hz]
  · by_cases hz : columnArrayDepth c = 0 <;> simp [columnResult, hz]
  · simpa using unwrapArrayLoop_eq 0 dt

/-- A sample two-dimensional array column: `tags text[][]`. -/
def exCol2 : PgColumnDef :=
  .mk (some "tags") (some (.mk (some [.stringNode "text"]) (some [-1, -1]))) none 0

/-- A sample table holding `exCol2`. -/
def exTable2 : PgCreateTable :=
  { name := "post", schema := none, location := 0, endLocation := 0
    tableElts := [.columnNode exCol2], constraintList := [] }

/-- Witness for C5 at the sample array column. -/
theorem c5_witness :
    ((columnResult exTable2 false [] defaultTypeMap exCol2 "tags" "text" none).1.arrayDimensions =
      (if columnArrayDepth exCol2 = 0 then none else some (columnArrayDepth exCol2))) ∧
    ((columnResult exTable2 false [] defaultTypeMap exCol2 "tags" "text" none).1.isArray =
      (if columnArrayDepth exCol2 = 0 then none else some true)) ∧
    (getPgTypeName exCol2.typeName = some "text") ∧
    ((columnResult exTable2 false [] defaultTypeMap exCol2 "tags" "text" none).1.type =
      { resolveTypeMapping defaultTypeMap (jsToLower "text") with
        ts := some ((resolveTypeMapping defaultTypeMap (jsToLower "text")).ts.getD
          (resolveTypeMapping defaultTypeMap (jsToLower "text")).name)
        sql := some "text" }) ∧
    (∀ dt : AstDataType, unwrapArrayLoop 0 dt = (astArrayDepth dt, astInnerName dt)) :=
  c5_array_dimensions exTable2 false [] defaultTypeMap exCol2 "tags" "text" none
    (by
      rw [show eligibleColumns exTable2 = [(exCol2, "tags", "text", none)] from rfl]
      exact List.mem_singleton.mpr rfl)

/-- Claim C7. Resolution of a declared type name against the merged
type-mapping table is case-insensitive (the queried name is lowercased
before lookup); a name absent from the table resolves to the `_default`
entry, and when `_default` is also absent to the built-in
`{name := "string"}` mapping. -/
theorem c7_type_resolution (tm : TypeMapObj) (n m : String) :
    (jsToLower n = jsToLower m →
      resolveTypeMapping tm (jsToLower n) = resolveTypeMapping tm (jsToLower m)) ∧
    (objGet tm (jsToLower n) = none →
      resolveTypeMapping tm (jsToLower n) = (objGet tm "_default").getD { name := "string" }) ∧
    (objGet tm (jsToLower n) = none → objGet tm "_default" = none →
      resolveTypeMapping tm (jsToLower n) = { name := "string" }) :=
  ⟨fun h => by rw [h],
   fun h => by simp [resolveTypeMapping, h],
   fun h h2 => by simp [resolveTypeMapping, h, h2]⟩

/-- Witness for C7: `TEXT`/`Text` resolve alike; `uuid` is absent from the
default table and falls to `_default`; with an empty table the hard-coded
`string` mapping applies. -/
theorem c7_witness :
    resolveTypeMapping defaultTypeMap (jsToLower "TEXT") =
      resolveTypeMapping defaultTypeMap (jsToLower "Text") ∧
    resolveTypeMapping defaultTypeMap (jsToLower "uuid") =
      (objGet defaultTypeMap "_default").getD { name := "string" } ∧
    resolveTypeMapping [] (jsToLower "uuid") = { name := "string" } :=
  ⟨(c7_type_resolution defaultTypeMap "TEXT" "Text").1 (by decide),
   (c7_type_resolution defaultTypeMap "uuid" "x").2.1 (by decide),
   (c7_type_resolution [] "uuid" "x").2.2 (by decide) (by decide)⟩

/-- Embeds `Forall₂` between two maps over the same list follows from the
pointwise relation. -/
theorem forall2_map_map {α β γ : Type} (R : β → γ → Prop) (f : α → β) (g : α → γ) :
    ∀ l : List α, (∀ a ∈ l, R (f a) (g a)) → List.Forall₂ R (l.map f) (l.map g) := by
  intro l h
  induction l with
  | nil => simp
  | cons a t ih =>
    simp only [List.map_cons]
    exact List.Forall₂.cons (h a (List.mem_cons_self a t)) (ih (fun b hb => h b (List.mem_cons_of_mem a hb)))

/-- The read/insert divergence of one column: the insertion property is
optional exactly when the read property is optional or the column carries a
default-value clause (and the recorded `hasDefault` flag is shared). -/
theorem columnResult_divergence (s : PgCreateTable) (sql : List Char)
    (tm : TypeMapObj) (c : PgColumnDef) (prop dataType : String)
    (next : Option PgNode) :
    ((columnResult s true sql tm c prop dataType next).1.optional = some true ↔
      ((columnResult s false sql tm c prop dataType next).1.optional = some true ∨
       (columnResult s false sql tm c prop dataType next).1.hasDefault = some true)) ∧
    (columnResult s true sql tm c prop dataType next).1.hasDefault =
      (columnResult s false sql tm c prop dataType next).1.hasDefault := by
  constructor
  · simp only [columnResult]
    cases hnn : columnNotNull c <;>
      cases hpk : columnIsPrimary s c prop <;>
      cases hhd : columnHasDefault c <;>
      simp
  · rfl

/-- Claim C2. Processing a table declaration produces exactly two type
records — a read shape named `toTsName(table)` and an insertion shape named
the same base name plus the configurable insertion suffix — appended as
exactly two entries to each emitter's type list; the two shapes share the
same ordered column (property-name) list and diverge only per the
required/optional rule: a property is optional in the insertion shape
exactly when it is optional in the read shape or has a default value. -/
theorem c2_two_shapes_per_table (s : PgCreateTable) (insertSuffix : String)
    (sql : List Char) (tm : TypeMapObj) (st : BuildState) :
    ((tableTypeDef s false insertSuffix sql tm).name = toTsName s.name) ∧
    ((tableTypeDef s true insertSuffix sql tm).name = toTsName s.name ++ insertSuffix) ∧
    ((processTable s insertSuffix sql tm st).tsTypes = st.tsTypes ++
      [tableTsSrc s false insertSuffix sql tm, tableTsSrc s true insertSuffix sql tm]) ∧
    ((processTable s insertSuffix sql tm st).zodTypes = st.zodTypes ++
      [tableZodSrc s false insertSuffix sql tm, tableZodSrc s true insertSuffix sql tm]) ∧
    ((processTable s insertSuffix sql tm st).convoTypes = st.convoTypes ++
      [tableConvoSrc s false insertSuffix sql tm, tableConvoSrc s true insertSuffix sql tm]) ∧
    ((processTable s insertSuffix sql tm st).typeDefs = st.typeDefs ++
      [tableTypeDef s false insertSuffix sql tm]) ∧
    ((tableTypeDef s false insertSuffix sql tm).props.map (fun p => p.name) =
      (tableTypeDef s true insertSuffix sql tm).props.map (fun p => p.name)) ∧
    List.Forall₂ (fun p q =>
        (q.optional = some true ↔ (p.optional = some true ∨ p.hasDefault = some true)) ∧
        q.hasDefault = p.hasDefault)
      (tableTypeDef s false insertSuffix sql tm).props
      (tableTypeDef s true insertSuffix sql tm).props := by
  refine ⟨?_, rfl, ?_, ?_, ?_, ?_, ?_, ?_⟩
  · simp [tableTypeDef, String.append_empty]
  · simp [processTable, createType]
  · simp [processTable, createType]
  · simp [processTable, createType]
  · simp [processTable, createType]
  · show (tableProps s false sql tm).map _ = (tableProps s true sql tm).map _
    unfold tableProps tableColumnResults
    simp only [List.map_map]
    apply List.map_congr_left
    intro e _
    rfl
  · show List.Forall₂ _ (tableProps s false sql tm) (tableProps s true sql tm)
    unfold tableProps tableColumnResults
    rw [List.map_map, List.map_map]
    exact forall2_map_map _ _ _ _ (fun e _ =>
      (columnResult_divergence s sql tm e.1 e.2.1 e.2.2.1 e.2.2.2))

/-- Claim C9. The pipeline is a pure function of the parsed statements, the
concatenated source text, the insertion suffix, and the merged type map:
two runs on identical input text and identical configuration produce
byte-identical artifacts.  Every ordering decision of the source is
embedded deterministically — JS objects iterate in insertion order
(association lists), `Array.prototype.sort` is a stable sort
(`List.mergeSort`), and the emitted lists are explicitly sorted — so no
oracle beyond the inputs appears anywhere in `runPipeline`. -/
theorem c9_deterministic_pipeline
    (stmts₁ stmts₂ : List PgRawStmt) (sql₁ sql₂ : List Char)
    (suffix₁ suffix₂ : String) (tm₁ tm₂ : TypeMapObj)
    (hs : stmts₁ = stmts₂) (hq : sql₁ = sql₂) (hx : suffix₁ = suffix₂)
    (ht : tm₁ = tm₂) :
    runPipeline stmts₁ sql₁ suffix₁ tm₁ = runPipeline stmts₂ sql₂ suffix₂ tm₂ := by
  subst hs hq hx ht
  rfl

/-- Witness for C9 at a concrete configuration. -/
theorem c9_witness :
    runPipeline [] [] "_insert" defaultTypeMap = runPipeline [] [] "_insert" defaultTypeMap :=
  c9_deterministic_pipeline [] [] [] [] "_insert" "_insert" defaultTypeMap defaultTypeMap
    rfl rfl rfl rfl

/-- Claim C8, code bug.  The guard `if(!map || typeof map !== 'object')`
is meant to reject any override file that does not contain a JSON object
(its own error message says "type map file should contain a JSON object",
and the spec requires a `ConfigurationError`), but `typeof [] === 'object'`
in JS, so a JSON *array* passes the guard and the run continues: an empty
array merges nothing, and a non-empty array is merged under its index keys.
Primitive JSON values are rejected as specified. -/
theorem c8_array_passes_guard :
    typeMapFileOk (JsonValue.arr []) = true ∧
    loadTypeMapFiles [JsonValue.arr []] [] = Except.ok [] ∧
    loadTypeMapFiles [JsonValue.arr [JsonValue.obj [("name", JsonValue.str "x")]]] [] =
      Except.ok [("0", JsonValue.obj [("name", JsonValue.str "x")])] ∧
    loadTypeMapFiles [JsonValue.str "x"] [] =
      Except.error "type map file should contain a JSON object" ∧
    loadTypeMapFiles [JsonValue.null] [] =
      Except.error "type map file should contain a JSON object" :=
  ⟨rfl, rfl, rfl, rfl, rfl⟩

/-! ## Association-list update lemmas (for the table/name map and the
enum-registered type map) -/

/-- Embeds `objGet` after the map-rewriting branch of `objSet`, at the written key. -/
theorem objGet_map_set_eq {α : Type} (m : List (String × α)) (k : String) (v : α)
    (hk : m.any (fun e => e.1 = k) = true) :
    objGet (m.map (fun e => if e.1 = k then (k, v) else e)) k = some v := by
  induction m with
  | nil => simp at hk
  | cons a t ih =>
    simp only [List.any_cons, Bool.or_eq_true, decide_eq_true_eq] at hk
    by_cases hak : a.1 = k
    · simp [objGet, List.find?, hak]
    · have ht : t.any (fun e => e.1 = k) = true := by
        rcases hk with h | h
        · exact absurd h hak
        · exact h
      simpa [objGet, List.find?, hak] using ih ht

/-- Embeds `objGet` after the map-rewriting branch of `objSet`, at another key. -/
theorem objGet_map_set_ne {α : Type} (m : List (String × α)) (k : String) (v : α)
    (k' : String) (hne : k' ≠ k) :
    objGet (m.map (fun e => if e.1 = k then (k, v) else e)) k' = objGet m k' := by
  induction m with
  | nil => rfl
  | cons a t ih =>
    by_cases hak : a.1 = k
    · have : ¬ (k = k') := fun h => hne h.symm
      simpa [objGet, List.find?, hak, this] using ih
    · by_cases hak' : a.1 = k'
      · simp [objGet, List.find?, hak, hak', hne]
      · simpa [objGet, List.find?, hak, hak'] using ih

/-- JS assignment followed by lookup. -/
theorem objGet_objSet {α : Type} (m : List (String × α)) (k : String) (v : α)
    (k' : String) :
    objGet (objSet m k v) k' = if k' = k then some v else objGet m k' := by
  unfold objSet
  split
  case isTrue hany =>
    by_cases hk : k' = k
    · rw [hk, objGet_map_set_eq m k v hany, if_pos rfl]
    · rw [objGet_map_set_ne m k v k' hk, if_neg hk]
  case isFalse hany =>
    by_cases hk : k' = k
    · subst hk
      have hnone : m.find? (fun e => e.1 = k') = none := by
        rw [List.find?_eq_none]
        intro e he
        simp only [List.any_eq_true, decide_eq_true_eq] at hany
        simp only [decide_eq_true_eq]
        exact fun h => hany ⟨e, he, h⟩
      simp [objGet, List.find?_append, hnone, List.find?]
    · simp only [objGet, List.find?_append]
      have hkk : ¬ (k = k') := fun h => hk h.symm
      have : List.find? (fun e => e.1 = k') [(k, v)] = none := by
        simp [List.find?, hkk]
      rw [this]
      cases List.find? (fun e => e.1 = k') m <;> simp [if_neg hk]

/-- Sequential JS assignments. -/
def applyWrites {α : Type} (m : List (String × α)) (ws : List (String × α)) :
    List (String × α) :=
  ws.foldl (fun m kv => objSet m kv.1 kv.2) m

/-- Lookup after a sequence of assignments: the last write to the key wins,
otherwise the base map answers. -/
theorem objGet_applyWrites {α : Type} (m : List (String × α))
    (ws : List (String × α)) (k : String) :
    objGet (applyWrites m ws) k =
      (match (ws.filter (fun w => w.1 = k)).getLast? with
       | some w => some w.2
       | none => objGet m k) := by
  induction ws generalizing m with
  | nil => simp [applyWrites]
  | cons w t ih =>
    rw [show applyWrites m (w :: t) = applyWrites (objSet m w.1 w.2) t from rfl, ih]
    by_cases hw : w.1 = k
    · rw [List.filter_cons, if_pos (by simpa using hw)]
      rw [show (w :: t.filter (fun x => x.1 = k)) = [w] ++ t.filter (fun x => x.1 = k) from rfl,
        List.getLast?_append]
      cases hfl : (t.filter (fun x => x.1 = k)).getLast? with
      | some x => simp
      | none =>
        simp only [Option.none_or]
        rw [objGet_objSet, if_pos hw.symm]
        rfl
    · rw [List.filter_cons, if_neg (by simpa using hw)]
      cases hfl : (t.filter (fun x => x.1 = k)).getLast? with
      | some x => rfl
      | none =>
        rw [objGet_objSet, if_neg (fun h => hw h.symm)]

/-- Lookup after assignments all of which (to the key) wrote one value. -/
theorem objGet_applyWrites_of_all {α : Type} (m : List (String × α))
    (ws : List (String × α)) (k : String) (v : α)
    (hne : ws.filter (fun w => w.1 = k) ≠ [])
    (hall : ∀ w ∈ ws.filter (fun w => w.1 = k), w.2 = v) :
    objGet (applyWrites m ws) k = some v := by
  rw [objGet_applyWrites]
  cases hL : (ws.filter (fun w => w.1 = k)).getLast? with
  | none => exact absurd (List.getLast?_eq_none_iff.mp hL) hne
  | some w =>
    have hwv := hall w (List.mem_of_mem_getLast? hL)
    simp [hwv]

/-- Lookup after assignments none of which touched the key. -/
theorem objGet_applyWrites_of_none {α : Type} (m : List (String × α))
    (ws : List (String × α)) (k : String)
    (hnone : ws.filter (fun w => w.1 = k) = []) :
    objGet (applyWrites m ws) k = objGet m k := by
  rw [objGet_applyWrites, hnone]
  rfl

/-- The enum phase never writes the table/name map. -/
theorem runEnumPhase_preserves_maps (stmts : List PgRawStmt) (sql : List Char)
    (tm : TypeMapObj) (st : BuildState) :
    (runEnumPhase stmts sql tm st).2.toName = st.toName ∧
    (runEnumPhase stmts sql tm st).2.toTable = st.toTable := by
  induction stmts generalizing tm st with
  | nil => exact ⟨rfl, rfl⟩
  | cons a r ih =>
    cases h : getPgCreateEnum a with
    | none => simpa [runEnumPhase, List.foldl_cons, h] using ih tm st
    | some e => simpa [runEnumPhase, List.foldl_cons, h, createEnum] using ih _ _

/-- One `processTable` writes `toName[storage] := toTsName storage`. -/
theorem processTable_toName (t : PgCreateTable) (suffix : String) (sql : List Char)
    (tm : TypeMapObj) (st : BuildState) :
    (processTable t suffix sql tm st).toName =
      objSet st.toName t.name (toTsName t.name) := by
  simp [processTable, createType, String.append_empty]

/-- One `processTable` writes `toTable[readName] := storage` then
`toTable[insertName] := storage`. -/
theorem processTable_toTable (t : PgCreateTable) (suffix : String) (sql : List Char)
    (tm : TypeMapObj) (st : BuildState) :
    (processTable t suffix sql tm st).toTable =
      objSet (objSet st.toTable (toTsName t.name) t.name)
        (toTsName t.name ++ suffix) t.name := by
  simp [processTable, createType, String.append_empty]

/-- The table phase's `toName` map is the write sequence
`storage ↦ toTsName storage` over the run's tables, in order. -/
theorem runTablePhase_toName (stmts : List PgRawStmt) (suffix : String)
    (sql : List Char) (tm : TypeMapObj) (st : BuildState) :
    (runTablePhase stmts suffix sql tm st).toName =
      applyWrites st.toName
        ((stmts.filterMap getPgCreateTable).map (fun t => (t.name, toTsName t.name))) := by
  induction stmts generalizing st with
  | nil => rfl
  | cons a r ih =>
    cases h : getPgCreateTable a with
    | none =>
      simpa [runTablePhase, List.foldl_cons, h, List.filterMap_cons] using ih st
    | some t =>
      have step : runTablePhase (a :: r) suffix sql tm st =
          runTablePhase r suffix sql tm (processTable t suffix sql tm st) := by
        simp [runTablePhase, List.foldl_cons, h]
      rw [step, ih, processTable_toName]
      simp [List.filterMap_cons, h, applyWrites]

/-- The table phase's `toTable` map is the write sequence
`readName ↦ storage, insertName ↦ storage` over the run's tables, in order. -/
theorem runTablePhase_toTable (stmts : List PgRawStmt) (suffix : String)
    (sql : List Char) (tm : TypeMapObj) (st : BuildState) :
    (runTablePhase stmts suffix sql tm st).toTable =
      applyWrites st.toTable
        ((stmts.filterMap getPgCreateTable).flatMap (fun t =>
          [(toTsName t.name, t.name), (toTsName t.name ++ suffix, t.name)])) := by
  induction stmts generalizing st with
  | nil => rfl
  | cons a r ih =>
    cases h : getPgCreateTable a with
    | none =>
      simpa [runTablePhase, List.foldl_cons, h, List.filterMap_cons] using ih st
    | some t =>
      have step : runTablePhase (a :: r) suffix sql tm st =
          runTablePhase r suffix sql tm (processTable t suffix sql tm st) := by
        simp [runTablePhase, List.foldl_cons, h]
      rw [step, ih, processTable_toTable]
      simp [List.filterMap_cons, h, applyWrites]

/-- Right cancellation of string append. -/
theorem strAppend_cancel_right {a b s : String} (h : a ++ s = b ++ s) : a = b := by
  have hd := congrArg String.data h
  simp only [String.data_append] at hd
  exact String.ext (List.append_cancel_right hd)

/-- Claim C3, amended.  After the builder finishes, for every table of the
run with storage name `S`, read name `T = toTsName S` and insertion name
`T' = T ++ suffix`: `toName[S] = T`, `toTable[T] = S`, `toTable[T'] = S`,
and `T'` is not a key of `toName` — provided the run's names do not
collide: the storage-to-type-name conversion is injective over the run's
tables, no insertion name equals a read name, and no storage name equals an
insertion name.  (Without these provisos the properties fail by last-write-
wins overwriting; see the counterexample.) -/
theorem c3_table_map_amended
    (stmts : List PgRawStmt) (insertSuffix : String) (sql : List Char)
    (tm : TypeMapObj) (t : PgCreateTable)
    (hmem : t ∈ stmts.filterMap getPgCreateTable)
    (hinj : ∀ a ∈ stmts.filterMap getPgCreateTable,
      ∀ b ∈ stmts.filterMap getPgCreateTable,
        toTsName a.name = toTsName b.name → a.name = b.name)
    (hri : ∀ a ∈ stmts.filterMap getPgCreateTable,
      ∀ b ∈ stmts.filterMap getPgCreateTable,
        toTsName a.name ++ insertSuffix ≠ toTsName b.name)
    (hsi : ∀ a ∈ stmts.filterMap getPgCreateTable,
      ∀ b ∈ stmts.filterMap getPgCreateTable,
        a.name ≠ toTsName b.name ++ insertSuffix) :
    objGet (runStatements stmts insertSuffix sql tm).2.toName t.name =
      some (toTsName t.name) ∧
    objGet (runStatements stmts insertSuffix sql tm).2.toTable (toTsName t.name) =
      some t.name ∧
    objGet (runStatements stmts insertSuffix sql tm).2.toTable
      (toTsName t.name ++ insertSuffix) = some t.name ∧
    objGet (runStatements stmts insertSuffix sql tm).2.toName
      (toTsName t.name ++ insertSuffix) = none := by
  have hRun : (runStatements stmts insertSuffix sql tm).2 =
      runTablePhase stmts insertSuffix sql (runEnumPhase stmts sql tm {}).1
        (runEnumPhase stmts sql tm {}).2 := rfl
  obtain ⟨hN, hT⟩ := runEnumPhase_preserves_maps stmts sql tm {}
  rw [hRun, runTablePhase_toName, runTablePhase_toTable, hN, hT]
  have hEmptyN : (({} : BuildState)).toName = [] := rfl
  have hEmptyT : (({} : BuildState)).toTable = [] := rfl
  rw [hEmptyN, hEmptyT]
  refine ⟨?_, ?_, ?_, ?_⟩
  · -- toName[S] = T
    apply objGet_applyWrites_of_all
    · refine List.ne_nil_of_mem (a := (t.name, toTsName t.name)) ?_
      rw [List.mem_filter]
      exact ⟨List.mem_map_of_mem _ hmem, by simp⟩
    · intro w hw
      rw [List.mem_filter] at hw
      obtain ⟨hwm, hwk⟩ := hw
      rw [List.mem_map] at hwm
      obtain ⟨u, -, rfl⟩ := hwm
      simp only [decide_eq_true_eq] at hwk
      rw [hwk]
  · -- toTable[T] = S
    apply objGet_applyWrites_of_all
    · refine List.ne_nil_of_mem (a := (toTsName t.name, t.name)) ?_
      rw [List.mem_filter]
      refine ⟨List.mem_flatMap.mpr ⟨t, hmem, ?_⟩, by simp⟩
      simp
    · intro w hw
      rw [List.mem_filter] at hw
      obtain ⟨hwm, hwk⟩ := hw
      rw [List.mem_flatMap] at hwm
      obtain ⟨u, hu, hwu⟩ := hwm
      simp only [decide_eq_true_eq] at hwk
      simp only [List.mem_cons, List.mem_singleton] at hwu
      rcases hwu with rfl | rfl | h
      · simp only at hwk ⊢
        exact hinj u hu t hmem hwk
      · exact absurd hwk (hri u hu t hmem)
      · exact absurd h (List.not_mem_nil _)
  · -- toTable[T'] = S
    apply objGet_applyWrites_of_all
    · refine List.ne_nil_of_mem (a := (toTsName t.name ++ insertSuffix, t.name)) ?_
      rw [List.mem_filter]
      refine ⟨List.mem_flatMap.mpr ⟨t, hmem, ?_⟩, by simp⟩
      simp
    · intro w hw
      rw [List.mem_filter] at hw
      obtain ⟨hwm, hwk⟩ := hw
      rw [List.mem_flatMap] at hwm
      obtain ⟨u, hu, hwu⟩ := hwm
      simp only [decide_eq_true_eq] at hwk
      simp only [List.mem_cons, List.mem_singleton] at hwu
      rcases hwu with rfl | rfl | h
      · exact absurd hwk.symm (hri t hmem u hu)
      · simp only at hwk ⊢
        exact hinj u hu t hmem (strAppend_cancel_right hwk)
      · exact absurd h (List.not_mem_nil _)
  · -- toName has no entry at T'
    rw [objGet_applyWrites_of_none]
    · rfl
    · rw [List.filter_eq_nil_iff]
      intro w hwm
      rw [List.mem_map] at hwm
      obtain ⟨u, hu, rfl⟩ := hwm
      simp only [decide_eq_true_eq]
      exact hsi u hu t hmem

/-- Raw statement of a columnless table named `foo`. -/
def c3StmtFoo : PgRawStmt := { stmt := .createStmt (some "foo") none (some []) }

/-- Raw statement of a columnless table whose storage name is the quoted
identifier `Foo_insert`. -/
def c3StmtFooIns : PgRawStmt := { stmt := .createStmt (some "Foo_insert") none (some []) }

/-- Claim C3 counterexample.  With tables `foo` and `"Foo_insert"` and the
default suffix, the insertion name of `foo` (`"Foo" ++ "_insert"`) *is* a
key of `toName` (it is the second table's storage name), refuting the
claim's "no insertion name is ever a key of toName". -/
theorem c3_counterexample :
    objGet (runStatements [c3StmtFoo, c3StmtFooIns] "_insert" [] defaultTypeMap).2.toName
      (toTsName "foo" ++ "_insert") = some "FooInsert" ∧
    ¬ (objGet (runStatements [c3StmtFoo, c3StmtFooIns] "_insert" [] defaultTypeMap).2.toName
      (toTsName "foo" ++ "_insert") = none) := by
  refine ⟨rfl, ?_⟩
  intro h
  exact Option.noConfusion
    ((show objGet
        (runStatements [c3StmtFoo, c3StmtFooIns] "_insert" [] defaultTypeMap).2.toName
        (toTsName "foo" ++ "_insert") = some "FooInsert" from rfl).symm.trans h)

/-- Raw statements of two collision-free tables. -/
def c3StmtAccounts : PgRawStmt := { stmt := .createStmt (some "accounts") none (some []) }

def c3StmtUsers : PgRawStmt := { stmt := .createStmt (some "users") none (some []) }

/-- The normalised `accounts` table of `c3StmtAccounts`. -/
def c3TableAccounts : PgCreateTable :=
  { name := "accounts", schema := none, location := 0, endLocation := 0
    tableElts := [], constraintList := [] }

/-- The normalised `users` table of `c3StmtUsers`. -/
def c3TableUsers : PgCreateTable :=
  { name := "users", schema := none, location := 0, endLocation := 0
    tableElts := [], constraintList := [] }

/-- Witness for the amended C3 on a collision-free two-table run. -/
theorem c3_witness :
    objGet (runStatements [c3StmtAccounts, c3StmtUsers] "_insert" [] defaultTypeMap).2.toName
      c3TableAccounts.name = some (toTsName c3TableAccounts.name) ∧
    objGet (runStatements [c3StmtAccounts, c3StmtUsers] "_insert" [] defaultTypeMap).2.toTable
      (toTsName c3TableAccounts.name) = some c3TableAccounts.name ∧
    objGet (runStatements [c3StmtAccounts, c3StmtUsers] "_insert" [] defaultTypeMap).2.toTable
      (toTsName c3TableAccounts.name ++ "_insert") = some c3TableAccounts.name ∧
    objGet (runStatements [c3StmtAccounts, c3StmtUsers] "_insert" [] defaultTypeMap).2.toName
      (toTsName c3TableAccounts.name ++ "_insert") = none :=
  c3_table_map_amended [c3StmtAccounts, c3StmtUsers] "_insert" [] defaultTypeMap
    c3TableAccounts
    (by
      rw [show [c3StmtAccounts, c3StmtUsers].filterMap getPgCreateTable =
        [c3TableAccounts, c3TableUsers] from rfl]
      exact List.mem_cons_self _ _)
    (by decide) (by decide) (by decide)

/-! ## Order theory for the sort comparator -/

/-- Characters with neither strictly below the other are equal. -/
theorem char_eq_of_not_lt {u v : Char} (h1 : ¬ u < v) (h2 : ¬ v < u) : u = v :=
  le_antisymm (not_lt.mp h2) (not_lt.mp h1)

/-- Swapping the arguments of `lexCompare` swaps the ordering. -/
theorem lexCompare_swap (a : List Char) : ∀ b, lexCompare b a = (lexCompare a b).swap := by
  induction a with
  | nil => intro b; cases b <;> rfl
  | cons x xs ih =>
    intro b
    cases b with
    | nil => rfl
    | cons y ys =>
      simp only [lexCompare]
      rcases lt_trichotomy x y with h | h | h
      · simp only [if_pos h, if_neg (asymm h)]
        rfl
      · subst h
        simp only [if_neg (lt_irrefl x)]
        rw [ih]
      · simp only [if_pos h, if_neg (asymm h)]
        rfl

/-- Embeds `lexCompare` transitivity in the `≠ .gt` form used by the comparator. -/
theorem lexCompare_trans_ngt (a : List Char) :
    ∀ b c, lexCompare a b ≠ .gt → lexCompare b c ≠ .gt → lexCompare a c ≠ .gt := by
  induction a with
  | nil =>
    intro b c _ _
    cases c <;> simp [lexCompare]
  | cons x xs ih =>
    intro b c h1 h2
    cases b with
    | nil => simp [lexCompare] at h1
    | cons y ys =>
      cases c with
      | nil => simp [lexCompare] at h2
      | cons z zs =>
        simp only [lexCompare] at h1 h2 ⊢
        by_cases hxy : x < y
        · -- x < y ≤ z, hence x < z
          by_cases hyz : y < z
          · rw [if_pos (lt_trans hxy hyz)]
            simp
          · by_cases hzy : z < y
            · simp [if_pos hxy, if_neg hyz, if_pos hzy] at h2
            · rw [char_eq_of_not_lt hyz hzy] at hxy
              rw [if_pos hxy]
              simp
        · by_cases hyx : y < x
          · simp [if_pos hyx, if_neg hxy] at h1
          · have hxy' : x = y := char_eq_of_not_lt hxy hyx
            subst hxy'
            by_cases hxz : x < z
            · rw [if_pos hxz]
              simp
            · by_cases hzx : z < x
              · simp [if_neg hxz, if_pos hzx] at h2
              · rw [if_neg hxz, if_neg hzx] at h2 ⊢
                rw [if_neg hxy, if_neg hxy] at h1
                exact ih ys zs h1 h2

/-- Transitivity of the `srcTypeLe` comparator. -/
theorem srcTypeLe_trans (a b c : SrcType) (h1 : srcTypeLe a b = true)
    (h2 : srcTypeLe b c = true) : srcTypeLe a c = true := by
  unfold srcTypeLe at *
  have g1 : lexCompare (srcTypeOrderName a).data (srcTypeOrderName b).data ≠ .gt := by
    intro h
    rw [h] at h1
    exact Bool.noConfusion h1
  have g2 : lexCompare (srcTypeOrderName b).data (srcTypeOrderName c).data ≠ .gt := by
    intro h
    rw [h] at h2
    exact Bool.noConfusion h2
  have g3 := lexCompare_trans_ngt _ _ _ g1 g2
  cases h : lexCompare (srcTypeOrderName a).data (srcTypeOrderName c).data <;> first
    | rfl
    | exact absurd h g3

/-- Totality of the `srcTypeLe` comparator. -/
theorem srcTypeLe_total (a b : SrcType) : (srcTypeLe a b || srcTypeLe b a) = true := by
  unfold srcTypeLe
  rw [lexCompare_swap]
  cases lexCompare (srcTypeOrderName b).data (srcTypeOrderName a).data <;> rfl

/-- The sorted output of `typesToString` is pairwise ordered by the
comparator. -/
theorem sortSrcTypes_sorted (l : List SrcType) :
    List.Pairwise (fun a b => srcTypeLe a b = true) (sortSrcTypes l) :=
  List.sorted_mergeSort srcTypeLe_trans srcTypeLe_total l

/-- The sort key's character list: zero-padded rank, `'_'`, base name. -/
theorem srcTypeOrderName_data (t : SrcType) :
    (srcTypeOrderName t).data =
      (padStart3 (Nat.repr t.order)).data ++ '_' :: t.baseName.data := by
  simp [srcTypeOrderName, String.data_append]

/-- A shared prefix does not affect `lexCompare`. -/
theorem lexCompare_append_same (p : List Char) :
    ∀ x y, lexCompare (p ++ x) (p ++ y) = lexCompare x y := by
  induction p with
  | nil => intro x y; rfl
  | cons c cs ih =>
    intro x y
    simp only [List.cons_append, lexCompare, if_neg (lt_irrefl c)]
    exact ih x y

/-- A table-ranked sort key compares strictly above an enum-ranked one. -/
theorem srcKey_gt_of_ranks (a b : SrcType) (ha : a.order = 2) (hb : b.order = 1) :
    lexCompare (srcTypeOrderName a).data (srcTypeOrderName b).data = .gt := by
  rw [srcTypeOrderName_data, srcTypeOrderName_data, ha, hb]
  rw [show (padStart3 (Nat.repr 2)).data = ['0', '0', '2'] from rfl,
    show (padStart3 (Nat.repr 1)).data = ['0', '0', '1'] from rfl]
  simp only [List.cons_append, List.nil_append, lexCompare,
    if_neg (lt_irrefl '0'),
    if_neg (show ¬ ('2' : Char) < '1' from by decide),
    if_pos (show ('1' : Char) < '2' from by decide)]

/-- The enum phase's type map is the write sequence
`declaredName ↦ synthetic mapping` over the run's enums, in order. -/
theorem runEnumPhase_typeMap (stmts : List PgRawStmt) (sql : List Char)
    (tm : TypeMapObj) (st : BuildState) :
    (runEnumPhase stmts sql tm st).1 =
      applyWrites tm
        ((stmts.filterMap getPgCreateEnum).map (fun e => (e.name, enumTypeMapping e.name))) := by
  induction stmts generalizing tm st with
  | nil => rfl
  | cons a r ih =>
    cases h : getPgCreateEnum a with
    | none =>
      simpa [runEnumPhase, List.foldl_cons, h, List.filterMap_cons] using ih tm st
    | some e =>
      have step : runEnumPhase (a :: r) sql tm st =
          runEnumPhase r sql (createEnum e sql tm st).1 (createEnum e sql tm st).2 := by
        simp [runEnumPhase, List.foldl_cons, h]
      rw [step, ih]
      simp [List.filterMap_cons, h, applyWrites, createEnum]

/-- After all enums are processed, each enum's declared name is mapped to
its synthetic type mapping (a later enum of the same name rewrites the
same value). -/
theorem enumRegistration (stmts : List PgRawStmt) (sql : List Char) (tm : TypeMapObj)
    (e : PgCreateEnum) (he : e ∈ stmts.filterMap getPgCreateEnum) :
    objGet (runEnumPhase stmts sql tm {}).1 e.name = some (enumTypeMapping e.name) := by
  rw [runEnumPhase_typeMap]
  apply objGet_applyWrites_of_all
  · refine List.ne_nil_of_mem (a := (e.name, enumTypeMapping e.name)) ?_
    rw [List.mem_filter]
    exact ⟨List.mem_map_of_mem _ he, by simp⟩
  · intro w hw
    rw [List.mem_filter] at hw
    obtain ⟨hwm, hwk⟩ := hw
    rw [List.mem_map] at hwm
    obtain ⟨u, -, rfl⟩ := hwm
    simp only [decide_eq_true_eq] at hwk
    rw [hwk]

/-- Claim C4, amended.  Every enum declaration registers a synthetic
type-mapping entry keyed by the enum's *exact* declared name, whose
rendered name is the generated type name and whose zod expression
references the generated schema name; tables are processed only after all
enums, so a column resolves to that synthetic mapping whenever its declared
type name *case-lowers to the registration key* — in particular, for every
enum whose declared name is lowercase (as PostgreSQL normalises unquoted
identifiers), every column typed as that enum; an enum registered under a
non-lowercase quoted name is never matched by the case-lowered lookup (see
the counterexample).  In every rendered textual output enum types sort
before table-derived types, alphabetically by base name within each rank. -/
theorem c4_enum_registration_and_order
    (stmts : List PgRawStmt) (insertSuffix : String) (sql : List Char)
    (tm : TypeMapObj) (e : PgCreateEnum)
    (he : e ∈ stmts.filterMap getPgCreateEnum) :
    (objGet (runStatements stmts insertSuffix sql tm).1 e.name =
      some { name := toTsName e.name, ts := none
             zod := some (toTsName e.name ++ "Schema"), convo := none, sql := none }) ∧
    (∀ dataType : String, jsToLower dataType = e.name →
      ∀ (t : PgCreateTable) (forInsert : Bool) (c : PgColumnDef) (prop : String)
        (next : Option PgNode),
        (columnResult t forInsert sql (runStatements stmts insertSuffix sql tm).1
          c prop dataType next).1.type =
          { name := toTsName e.name, ts := some (toTsName e.name)
            zod := some (toTsName e.name ++ "Schema"), convo := none
            sql := some dataType }) ∧
    (∀ l : List SrcType, List.Pairwise (fun a b =>
        (a.order = 2 → b.order ≠ 1) ∧
        (a.order = b.order → lexCompare a.baseName.data b.baseName.data ≠ .gt))
      (sortSrcTypes l)) := by
  have hreg : objGet (runStatements stmts insertSuffix sql tm).1 e.name =
      some (enumTypeMapping e.name) := enumRegistration stmts sql tm e he
  refine ⟨hreg, ?_, ?_⟩
  · intro dataType hdt t forInsert c prop next
    have hmt : resolveTypeMapping (runStatements stmts insertSuffix sql tm).1
        (jsToLower dataType) = enumTypeMapping e.name := by
      rw [hdt, resolveTypeMapping, hreg]
      rfl
    show ({ resolveTypeMapping (runStatements stmts insertSuffix sql tm).1
        (jsToLower dataType) with
        ts := some ((resolveTypeMapping (runStatements stmts insertSuffix sql tm).1
          (jsToLower dataType)).ts.getD
          (resolveTypeMapping (runStatements stmts insertSuffix sql tm).1
            (jsToLower dataType)).name)
        sql := some dataType } : TypeMapping) = _
    rw [hmt]
    rfl
  · intro l
    have key : ∀ a b : SrcType, srcTypeLe a b = true →
        (a.order = 2 → b.order ≠ 1) ∧
        (a.order = b.order → lexCompare a.baseName.data b.baseName.data ≠ .gt) := by
      intro a b hab
      refine ⟨?_, ?_⟩
      · intro ha hb
        unfold srcTypeLe at hab
        rw [srcKey_gt_of_ranks _ _ ha hb] at hab
        exact Bool.noConfusion hab
      · intro hord hgt
        have hkey : lexCompare (srcTypeOrderName a).data (srcTypeOrderName b).data =
            lexCompare a.baseName.data b.baseName.data := by
          rw [srcTypeOrderName_data, srcTypeOrderName_data, hord]
          have h1 : (padStart3 (Nat.repr b.order)).data ++ '_' :: a.baseName.data =
              ((padStart3 (Nat.repr b.order)).data ++ ['_']) ++ a.baseName.data := by simp
          have h2 : (padStart3 (Nat.repr b.order)).data ++ '_' :: b.baseName.data =
              ((padStart3 (Nat.repr b.order)).data ++ ['_']) ++ b.baseName.data := by simp
          rw [h1, h2, lexCompare_append_same]
        unfold srcTypeLe at hab
        rw [hkey, hgt] at hab
        exact Bool.noConfusion hab
    exact (sortSrcTypes_sorted l).imp (fun h => key _ _ h)

/-- Raw statement of an enum declared with the quoted mixed-case name
`"Role_Type"`. -/
def c4EnumStmt : PgRawStmt :=
  { stmt := .createEnumStmt (some [.stringNode "Role_Type"]) (some [.stringNode "a"]) }

/-- A column declared with the same quoted mixed-case type name. -/
def c4ColRole : PgNode :=
  .columnNode (.mk (some "r") (some (.mk (some [.stringNode "Role_Type"]) none)) none 0)

/-- Raw statement of a table with one `"Role_Type"` column. -/
def c4TableStmt : PgRawStmt :=
  { stmt := .createStmt (some "t") none (some [c4ColRole]) }

/-- Claim C4 counterexample.  The enum `"Role_Type"` is registered under its
exact declared name, but the column lookup lowercases the declared type, so
a column typed `"Role_Type"` falls through to the `_default` mapping
(`string`) instead of the synthetic `RoleType` mapping: the claim's "every
column typed as that enum resolves to the synthetic mapping" fails. -/
theorem c4_counterexample :
    ((runStatements [c4EnumStmt, c4TableStmt] "_insert" [] defaultTypeMap).2.typeDefs.map
      (fun td => td.props.map (fun p => p.type.name))) = [[], ["string"]] ∧
    toTsName "Role_Type" = "Role_Type" ∧
    ("string" : String) ≠ "Role_Type" :=
  ⟨rfl, rfl, by decide⟩

/-- Raw statement of an enum declared with the lowercase name `role_type`. -/
def c4EnumOkStmt : PgRawStmt :=
  { stmt := .createEnumStmt (some [.stringNode "role_type"]) (some [.stringNode "a"]) }

/-- The normalised enum of `c4EnumOkStmt`. -/
def c4EnumOk : PgCreateEnum :=
  { name := "role_type", location := 0, vals := [.stringNode "a"] }

/-- Witness for the amended C4 at the lowercase enum `role_type`. -/
theorem c4_witness :
    (objGet (runStatements [c4EnumOkStmt] "_insert" [] defaultTypeMap).1 c4EnumOk.name =
      some { name := toTsName c4EnumOk.name, ts := none
             zod := some (toTsName c4EnumOk.name ++ "Schema"), convo := none, sql := none }) ∧
    (∀ dataType : String, jsToLower dataType = c4EnumOk.name →
      ∀ (t : PgCreateTable) (forInsert : Bool) (c : PgColumnDef) (prop : String)
        (next : Option PgNode),
        (columnResult t forInsert [] (runStatements [c4EnumOkStmt] "_insert" [] defaultTypeMap).1
          c prop dataType next).1.type =
          { name := toTsName c4EnumOk.name, ts := some (toTsName c4EnumOk.name)
            zod := some (toTsName c4EnumOk.name ++ "Schema"), convo := none
            sql := some dataType }) ∧
    (∀ l : List SrcType, List.Pairwise (fun a b =>
        (a.order = 2 → b.order ≠ 1) ∧
        (a.order = b.order → lexCompare a.baseName.data b.baseName.data ≠ .gt))
      (sortSrcTypes l)) :=
  c4_enum_registration_and_order [c4EnumOkStmt] "_insert" [] defaultTypeMap c4EnumOk
    (by
      rw [show [c4EnumOkStmt].filterMap getPgCreateEnum = [c4EnumOk] from rfl]
      exact List.mem_singleton.mpr rfl)

/-! ## Non-blankness of recovered comments (C10) -/

/-- An entry collected by the comment loop: blank, or ending in a
non-whitespace character. -/
def endsNonWs (e : List Char) : Prop :=
  e = [] ∨ ∃ c, e.getLast? = some c ∧ isJsWs c = false

/-- The head surviving `dropWhile` fails the predicate. -/
theorem head_dropWhile_not {α : Type} (p : α → Bool) :
    ∀ (l : List α) (a : α), (l.dropWhile p).head? = some a → p a = false := by
  intro l
  induction l with
  | nil => simp
  | cons x t ih =>
    intro a h
    by_cases hp : p x
    · rw [List.dropWhile_cons, if_pos hp] at h
      exact ih a h
    · rw [List.dropWhile_cons, if_neg hp] at h
      simp only [List.head?_cons, Option.some.injEq] at h
      subst h
      exact Bool.not_eq_true _ ▸ Bool.of_not_eq_true hp

/-- A trimmed list is blank or ends in a non-whitespace character. -/
theorem jsTrim_endsNonWs (l : List Char) : endsNonWs (jsTrim l) := by
  unfold jsTrim endsNonWs
  cases h : (l.dropWhile isJsWs).reverse.dropWhile isJsWs with
  | nil => left; rfl
  | cons a t =>
    right
    refine ⟨a, ?_, ?_⟩
    · rw [List.getLast?_reverse]
      rfl
    · exact head_dropWhile_not isJsWs _ a (by rw [h]; rfl)

/-- Dropping a prefix preserves `endsNonWs`. -/
theorem endsNonWs_drop (x : List Char) (k : Nat) (h : endsNonWs x) :
    endsNonWs (x.drop k) := by
  cases hd : (x.drop k).getLast? with
  | none => exact Or.inl (List.getLast?_eq_none_iff.mp hd)
  | some d =>
    right
    have hxk : x.drop k ≠ [] := by
      intro hnil
      rw [hnil] at hd
      exact Option.noConfusion hd
    have hx : x.getLast? = some d := by
      conv_lhs => rw [← List.take_append_drop k x]
      rw [List.getLast?_append, hd]
      rfl
    rcases h with hnil | ⟨c, hc, hcw⟩
    · subst hnil
      simp at hxk
    · rw [hx] at hc
      injection hc with hdc
      subst hdc
      exact ⟨d, hd, hcw⟩

/-- Every entry collected by `findCommentLoop` is blank or ends in a
non-whitespace character. -/
theorem findCommentLoop_endsNonWs (sql : List Char) (forward : Bool) :
    ∀ (fuel : Nat) (i : Int) (lines : List (List Char)),
      (∀ e ∈ lines, endsNonWs e) →
      ∀ e ∈ findCommentLoop sql forward fuel i lines, endsNonWs e := by
  intro fuel
  induction fuel with
  | zero => intro i lines h e he; exact h e he
  | succ n ih =>
    intro i lines h e he
    rw [findCommentLoop] at he
    dsimp only at he
    repeat' split at he
    all_goals try exact h e he
    all_goals refine ih _ _ ?_ e he
    all_goals intro x hx
    all_goals first
      | (rcases List.mem_cons.mp hx with hx1 | hx1
         · subst hx1
           exact endsNonWs_drop _ _ (jsTrim_endsNonWs _)
         · exact h x hx1)
      | (rcases List.mem_append.mp hx with hx1 | hx1
         · exact h x hx1
         · rw [List.mem_singleton] at hx1
           subst hx1
           exact endsNonWs_drop _ _ (jsTrim_endsNonWs _))

/-- An element failing the predicate survives `dropWhile`. -/
theorem mem_dropWhile_of_neg {α : Type} (p : α → Bool) (l : List α) (c : α)
    (hc : c ∈ l) (hp : p c = false) : c ∈ l.dropWhile p := by
  induction l with
  | nil => cases hc
  | cons a t ih =>
    rw [List.dropWhile_cons]
    by_cases hpa : p a
    · rw [if_pos hpa]
      rcases List.mem_cons.mp hc with rfl | hct
      · rw [hp] at hpa
        exact absurd hpa (by simp)
      · exact ih hct
    · rw [if_neg hpa]
      exact hc

/-- A non-whitespace character of a list survives `jsTrim`. -/
theorem mem_jsTrim (l : List Char) (c : Char) (hc : c ∈ l)
    (hw : isJsWs c = false) : c ∈ jsTrim l := by
  unfold jsTrim
  rw [List.mem_reverse]
  apply mem_dropWhile_of_neg _ _ _ _ hw
  rw [List.mem_reverse]
  exact mem_dropWhile_of_neg _ _ _ hc hw

/-- Every character of every joined line appears in the join. -/
theorem mem_jsJoinNl (ls : List (List Char)) (x : List Char) (c : Char)
    (hx : x ∈ ls) (hc : c ∈ x) : c ∈ jsJoinNl ls := by
  induction ls with
  | nil => cases hx
  | cons a t ih =>
    cases t with
    | nil =>
      rw [List.mem_singleton] at hx
      subst hx
      exact hc
    | cons b ts =>
      rw [show jsJoinNl (a :: b :: ts) = a ++ '\n' :: jsJoinNl (b :: ts) from rfl]
      rcases List.mem_cons.mp hx with rfl | hxt
      · exact List.mem_append.mpr (Or.inl hc)
      · exact List.mem_append.mpr (Or.inr (List.mem_cons.mpr (Or.inr (ih hxt))))

/-- The rendered comment of a line list whose entries are blank or end in a
non-whitespace character is non-blank (after trimming) whenever the
trailing-blank removal leaves any entry. -/
theorem renderedComment_nonblank (lines : List (List Char))
    (hinv : ∀ e ∈ lines, endsNonWs e)
    (hne : (lines.reverse.dropWhile (fun l => l = [])).reverse ≠ []) :
    jsTrim (jsTrim (jsJoinNl (lines.reverse.dropWhile (fun l => l = [])).reverse)) ≠ [] := by
  set lines2 := (lines.reverse.dropWhile (fun l => l = [])).reverse with hl2
  cases hL : lines2.getLast? with
  | none => exact absurd (List.getLast?_eq_none_iff.mp hL) hne
  | some e0 =>
    have he0mem2 : e0 ∈ lines2 := List.mem_of_mem_getLast? hL
    have he0mem : e0 ∈ lines := by
      have h1 : e0 ∈ lines.reverse.dropWhile (fun l => l = []) := by
        rw [hl2, List.mem_reverse] at he0mem2
        exact he0mem2
      have h2 : e0 ∈ lines.reverse := by
        have := List.takeWhile_append_dropWhile (p := fun l => decide (l = []))
          (l := lines.reverse)
        rw [← this]
        exact List.mem_append.mpr (Or.inr h1)
      rw [List.mem_reverse] at h2
      exact h2
    have he0ne : e0 ≠ [] := by
      have hhead : (lines.reverse.dropWhile (fun l => l = [])).head? = some e0 := by
        rw [hl2, List.getLast?_reverse] at hL
        exact hL
      have := head_dropWhile_not (fun l => decide (l = [])) lines.reverse e0 hhead
      exact of_decide_eq_false this
    rcases hinv e0 he0mem with rfl | ⟨c, hc, hcw⟩
    · exact absurd rfl he0ne
    · have hcmem : c ∈ e0 := List.mem_of_mem_getLast? hc
      have h1 : c ∈ jsJoinNl lines2 := mem_jsJoinNl lines2 e0 c he0mem2 hcmem
      have h2 : c ∈ jsTrim (jsJoinNl lines2) := mem_jsTrim _ c h1 hcw
      have h3 : c ∈ jsTrim (jsTrim (jsJoinNl lines2)) := mem_jsTrim _ c h2 hcw
      exact List.ne_nil_of_mem h3

/-- Claim C10. Comment recovery never yields a blank string: for every source
text, position and scan direction, `findComment` returns either `none`
(when no comment lines were collected, or all collected lines were blank,
so the trailing-blank removal empties the list) or a string that is
non-empty after trimming. -/
theorem c10_findComment_nonblank (sql : List Char) (p : Int) (forward : Bool)
    (s : List Char) (h : findComment sql p forward = some s) :
    jsTrim s ≠ [] := by
  unfold findComment at h
  dsimp only at h
  repeat' split at h
  all_goals first
    | exact Option.noConfusion h
    | (injection h with hs
       subst hs
       exact renderedComment_nonblank _
         (findCommentLoop_endsNonWs sql forward _ _ [] (by simp)) (by assumption))

/-- Witness for C10 at a concrete recovered comment. -/
theorem c10_witness : jsTrim ("hello".data) ≠ [] :=
  c10_findComment_nonblank ("w;\n-- hello\nq int".data) 13 false ("hello".data) (by decide)

/-! ## Line-level characterisation of backward comment recovery (C6) -/

/-- A line the backward scan collects: blank after trimming, or a `--`
line comment. -/
def okLineB (l : List Char) : Bool :=
  decide (jsTrim l = []) || startsDashDash (jsTrim l)

/-- The marker stripping applied to a collected line: trim, then drop
`'-- '` (marker plus one space) when present, else drop `'--'`. -/
def stripLine (l : List Char) : List Char :=
  if startsDashDashSpace (jsTrim l) then (jsTrim l).drop 3 else (jsTrim l).drop 2

/-- The tail of `findComment` after the scan: drop trailing blank entries;
`none` if nothing remains, else the newline-join, trimmed. -/
def renderLines (lines : List (List Char)) : Option (List Char) :=
  let lines2 := (lines.reverse.dropWhile (fun l => l = [])).reverse
  if lines2 = [] then none else some (jsTrim (jsJoinNl lines2))

/-- Embeds `lastIdxOf` misses exactly the absent characters. -/
theorem lastIdxOf_eq_none_of_not_mem (c : Char) :
    ∀ (l : List Char), c ∉ l → lastIdxOf l c = none := by
  intro l
  induction l with
  | nil => intro _; rfl
  | cons a t ih =>
    intro h
    rw [List.mem_cons] at h
    push_neg at h
    rw [lastIdxOf, ih h.2, if_neg (fun hh => h.1 hh.symm)]

/-- Embeds `lastIdxOf` finds the marked position when the tail is clean. -/
theorem lastIdxOf_append (c : Char) (Q : List Char) (hQ : c ∉ Q) :
    ∀ (P : List Char), lastIdxOf (P ++ c :: Q) c = some P.length := by
  intro P
  induction P with
  | nil =>
    rw [List.nil_append, lastIdxOf, lastIdxOf_eq_none_of_not_mem c Q hQ, if_pos rfl]
    rfl
  | cons a t ih =>
    rw [List.cons_append, lastIdxOf, ih]
    rfl

/-- Embeds `jsLastIndexOf` on `A ++ '\n' :: (lm ++ suffix)` from inside `lm`
finds the marked newline when `lm` is newline-free. -/
theorem jsLastIndexOf_struct (A lm suffix : List Char) (hlm : '\n' ∉ lm) :
    jsLastIndexOf (A ++ '\n' :: (lm ++ suffix)) '\n'
      ((A.length + lm.length : Nat) : Int) = A.length := by
  unfold jsLastIndexOf
  have hlen : (A ++ '\n' :: (lm ++ suffix)).length =
      A.length + 1 + lm.length + suffix.length := by
    simp [List.length_append]
    omega
  have hstop : min ((A.length + lm.length : Nat) : Int).toNat
      ((A ++ '\n' :: (lm ++ suffix)).length - 1) = A.length + lm.length := by
    rw [hlen]
    omega
  rw [hstop]
  have htake : (A ++ '\n' :: (lm ++ suffix)).take (A.length + lm.length + 1) =
      A ++ '\n' :: lm := by
    have h1 : A.length + lm.length + 1 = A.length + (lm.length + 1) := by omega
    rw [h1, List.take_append]
    have h2 : ('\n' :: (lm ++ suffix)).take (lm.length + 1) = '\n' :: lm := by
      rw [List.take_succ_cons, List.take_left]
    rw [h2]
  rw [htake, lastIdxOf_append '\n' lm hlm A]

/-- Embeds `jsLastIndexOf` from inside a newline-free first line misses. -/
theorem jsLastIndexOf_first_line (l0 suffix : List Char) (h0 : '\n' ∉ l0)
    (hne : l0 ≠ []) :
    jsLastIndexOf (l0 ++ suffix) '\n' ((l0.length : Int) - 1) = -1 := by
  unfold jsLastIndexOf
  have hlen : (l0 ++ suffix).length = l0.length + suffix.length := by
    simp [List.length_append]
  have hl1 : 1 ≤ l0.length := List.length_pos.mpr hne
  have hstop : min ((l0.length : Int) - 1).toNat ((l0 ++ suffix).length - 1) =
      l0.length - 1 := by
    rw [hlen]
    omega
  rw [hstop]
  have htake : (l0 ++ suffix).take (l0.length - 1 + 1) = l0 := by
    have h1 : l0.length - 1 + 1 = l0.length := by omega
    rw [h1, List.take_left]
  rw [htake, lastIdxOf_eq_none_of_not_mem '\n' l0 h0]

/-- Embeds `jsSubstring` extracts the newline plus the scanned line. -/
theorem jsSubstring_struct (A lm suffix : List Char) :
    jsSubstring (A ++ '\n' :: (lm ++ suffix)) (A.length : Int)
      ((A.length + lm.length + 1 : Nat) : Int) = '\n' :: lm := by
  unfold jsSubstring
  dsimp only
  have hlen : (A ++ '\n' :: (lm ++ suffix)).length =
      A.length + 1 + lm.length + suffix.length := by
    simp [List.length_append]
    omega
  have ha : min ((A.length : Int)).toNat (A ++ '\n' :: (lm ++ suffix)).length =
      A.length := by
    rw [hlen]
    omega
  have hb : min ((A.length + lm.length + 1 : Nat) : Int).toNat
      (A ++ '\n' :: (lm ++ suffix)).length = A.length + lm.length + 1 := by
    rw [hlen]
    omega
  rw [ha, hb]
  have hmin : min A.length (A.length + lm.length + 1) = A.length := by omega
  have hmax : max A.length (A.length + lm.length + 1) = A.length + lm.length + 1 := by
    omega
  rw [hmin, hmax]
  have htake : (A ++ '\n' :: (lm ++ suffix)).take (A.length + lm.length + 1) =
      A ++ '\n' :: lm := by
    have h1 : A.length + lm.length + 1 = A.length + (lm.length + 1) := by omega
    rw [h1, List.take_append]
    have h2 : ('\n' :: (lm ++ suffix)).take (lm.length + 1) = '\n' :: lm := by
      rw [List.take_succ_cons, List.take_left]
    rw [h2]
  rw [htake, List.drop_left]

/-- Trimming eats a leading newline. -/
theorem jsTrim_cons_nl (l : List Char) : jsTrim ('\n' :: l) = jsTrim l := by
  unfold jsTrim
  rw [List.dropWhile_cons, if_pos (by rfl)]

/-- Joining with a final extra line. -/
theorem jsJoinNl_append_single (lm : List Char) :
    ∀ (l0 : List Char) (ls : List (List Char)),
      jsJoinNl (l0 :: (ls ++ [lm])) = jsJoinNl (l0 :: ls) ++ '\n' :: lm := by
  intro l0 ls
  induction ls generalizing l0 with
  | nil => rfl
  | cons b t ih =>
    rw [List.cons_append]
    rw [show jsJoinNl (l0 :: b :: (t ++ [lm])) = l0 ++ '\n' :: jsJoinNl (b :: (t ++ [lm]))
      from rfl, ih b]
    rw [show jsJoinNl (l0 :: b :: t) = l0 ++ '\n' :: jsJoinNl (b :: t) from rfl]
    simp [List.append_assoc]

/-- One backward step of the scan loop, with the cursor in range. -/
theorem findCommentLoop_backward_step (sql : List Char) (fuel : Nat) (i : Int)
    (acc : List (List Char)) (hguard : i > -1 ∧ i ≤ (sql.length : Int)) :
    findCommentLoop sql false (fuel + 1) i acc =
      (if jsLastIndexOf sql '\n' i = -1 then acc
       else if jsTrim (jsSubstring sql (jsLastIndexOf sql '\n' i) (i + 1)) ≠ [] ∧
           ¬ startsDashDash (jsTrim (jsSubstring sql (jsLastIndexOf sql '\n' i) (i + 1))) = true
         then acc
       else findCommentLoop sql false fuel (jsLastIndexOf sql '\n' i - 1)
         ((if startsDashDashSpace
             (jsTrim (jsSubstring sql (jsLastIndexOf sql '\n' i) (i + 1))) = true
           then (jsTrim (jsSubstring sql (jsLastIndexOf sql '\n' i) (i + 1))).drop 3
           else (jsTrim (jsSubstring sql (jsLastIndexOf sql '\n' i) (i + 1))).drop 2) :: acc)) := by
  rw [findCommentLoop, if_pos hguard]
  rfl

/-- The loop with the cursor out of range returns the accumulator. -/
theorem findCommentLoop_stop (sql : List Char) (forward : Bool) (fuel : Nat)
    (i : Int) (acc : List (List Char))
    (h : ¬ (i > -1 ∧ i ≤ (sql.length : Int))) :
    findCommentLoop sql forward (fuel + 1) i acc = acc := by
  rw [findCommentLoop, if_neg h]

/-- The backward scan over a buffer `lines ++ "\n" ++ suffix`, started at the
last character of the joined lines, collects exactly the marker-stripped
trimmed entries of the longest blank-or-comment run of the lines above the
newline (never reaching line `l0`, the first line of the text). -/
theorem findCommentLoop_backward_lines (l0 : List Char) (h0 : '\n' ∉ l0)
    (ls : List (List Char)) :
    (∀ l ∈ ls, '\n' ∉ l) →
    ∀ (suffix : List Char) (acc : List (List Char)) (fuel : Nat),
      (jsJoinNl (l0 :: ls)).length + 1 ≤ fuel →
      findCommentLoop (jsJoinNl (l0 :: ls) ++ suffix) false fuel
        (((jsJoinNl (l0 :: ls)).length : Int) - 1) acc =
      ((ls.reverse.takeWhile okLineB).map stripLine).reverse ++ acc := by
  induction ls using List.reverseRecOn with
  | nil =>
    intro _ suffix acc fuel hfuel
    rw [show jsJoinNl [l0] = l0 from rfl] at hfuel ⊢
    by_cases hl0 : l0 = []
    · subst hl0
      cases fuel with
      | zero => omega
      | succ f =>
        rw [findCommentLoop_stop _ _ _ _ _ (by simp)]
        rfl
    · have hpos : 1 ≤ l0.length := List.length_pos.mpr hl0
      cases fuel with
      | zero => omega
      | succ f =>
        rw [findCommentLoop_backward_step _ _ _ _
          (by
            constructor
            · omega
            · have : (l0 ++ suffix).length = l0.length + suffix.length := by
                simp [List.length_append]
              omega)]
        rw [jsLastIndexOf_first_line l0 suffix h0 hl0, if_pos rfl]
        rfl
  | append_singleton ls' lm ih =>
    intro hls suffix acc fuel hfuel
    have hlm : '\n' ∉ lm := hls lm (List.mem_append.mpr (Or.inr (List.mem_singleton.mpr rfl)))
    have hls' : ∀ l ∈ ls', '\n' ∉ l := fun l hl => hls l (List.mem_append.mpr (Or.inl hl))
    have hJ : jsJoinNl (l0 :: (ls' ++ [lm])) = jsJoinNl (l0 :: ls') ++ '\n' :: lm :=
      jsJoinNl_append_single lm l0 ls'
    set A := jsJoinNl (l0 :: ls') with hA
    have hJlen : (jsJoinNl (l0 :: (ls' ++ [lm]))).length = A.length + 1 + lm.length := by
      rw [hJ]
      simp [List.length_append]
      omega
    have hsql : jsJoinNl (l0 :: (ls' ++ [lm])) ++ suffix = A ++ '\n' :: (lm ++ suffix) := by
      rw [hJ]
      simp [List.append_assoc]
    rw [hJlen] at hfuel ⊢
    rw [hsql]
    have hsqllen : (A ++ '\n' :: (lm ++ suffix)).length =
        A.length + 1 + lm.length + suffix.length := by
      simp [List.length_append]
      omega
    cases fuel with
    | zero => omega
    | succ f =>
      have hi : ((A.length + 1 + lm.length : Nat) : Int) - 1 =
          ((A.length + lm.length : Nat) : Int) := by
        push_cast
        omega
      rw [hi]
      rw [findCommentLoop_backward_step _ _ _ _
        (by
          constructor
          · omega
          · rw [hsqllen]
            push_cast
            omega)]
      rw [jsLastIndexOf_struct A lm suffix hlm]
      rw [if_neg (by omega)]
      have hiplus : ((A.length + lm.length : Nat) : Int) + 1 =
          ((A.length + lm.length + 1 : Nat) : Int) := by
        push_cast
        omega
      rw [hiplus, jsSubstring_struct A lm suffix, jsTrim_cons_nl]
      have hrev : (ls' ++ [lm]).reverse = lm :: ls'.reverse := by
        rw [List.reverse_append]
        rfl
      by_cases hok : okLineB lm = true
      · -- the line is collected and the scan continues one line up
        have hcond : ¬ (jsTrim lm ≠ [] ∧ ¬ startsDashDash (jsTrim lm) = true) := by
          unfold okLineB at hok
          rw [Bool.or_eq_true, decide_eq_true_eq] at hok
          rcases hok with h1 | h1
          · intro hcontra
            exact hcontra.1 h1
          · intro hcontra
            exact hcontra.2 h1
        rw [if_neg hcond]
        have hstrip : (if startsDashDashSpace (jsTrim lm) = true
            then (jsTrim lm).drop 3 else (jsTrim lm).drop 2) = stripLine lm := rfl
        rw [hstrip]
        rw [ih hls' ('\n' :: (lm ++ suffix)) (stripLine lm :: acc) f (by omega)]
        rw [hrev, List.takeWhile_cons, if_pos hok]
        simp
      · -- the line stops the scan
        have hcond : jsTrim lm ≠ [] ∧ ¬ startsDashDash (jsTrim lm) = true := by
          unfold okLineB at hok
          rw [Bool.or_eq_true, decide_eq_true_eq] at hok
          push_neg at hok
          exact hok
        rw [if_pos hcond]
        rw [hrev, List.takeWhile_cons, if_neg hok]
        rfl

/-- Embeds `findComment` without the third argument (backward), as one equation. -/
theorem findComment_backward_eq (sql : List Char) (p : Int) :
    findComment sql p false =
      (if jsLastIndexOf sql '\n' p = -1 then none
       else
         renderLines (findCommentLoop sql false (sql.length + 2)
           ((if jsSubstring sql (jsLastIndexOf sql '\n' p) 1 = [';']
             then jsLastIndexOf sql '\n' p + 1
             else jsLastIndexOf sql '\n' p) - 1) [])) := by
  unfold findComment renderLines
  rfl

/-- Claim C6, amended.  For a column declaration sitting below a newline that
terminates the joined lines `l0 :: ls` (hypotheses `hp`, `hq` say the
backward scan starts at that newline and the `';'` quirk does not fire),
the recovered description is exactly: scan `ls` bottom-up, collecting the
contiguous run of lines that are blank or `--` comments (blank lines do
*not* break the association; the text's very first line `l0` is never
collected), trim each and strip its marker plus a single following space,
drop trailing blank entries, and return the newline-join of the remainder,
trimmed — absent only when no entries remain. -/
theorem c6_comment_recovery_amended (l0 : List Char) (ls : List (List Char))
    (declRest : List Char) (p : Int)
    (h0 : '\n' ∉ l0) (hls : ∀ l ∈ ls, '\n' ∉ l)
    (hp : jsLastIndexOf (jsJoinNl (l0 :: ls) ++ '\n' :: declRest) '\n' p =
      ((jsJoinNl (l0 :: ls)).length : Int))
    (hq : jsSubstring (jsJoinNl (l0 :: ls) ++ '\n' :: declRest)
      ((jsJoinNl (l0 :: ls)).length : Int) 1 ≠ [';']) :
    findComment (jsJoinNl (l0 :: ls) ++ '\n' :: declRest) p false =
      renderLines (((ls.reverse.takeWhile okLineB).map stripLine).reverse) := by
  rw [findComment_backward_eq, hp]
  rw [if_neg (by omega)]
  rw [if_neg hq]
  have hlen : (jsJoinNl (l0 :: ls) ++ '\n' :: declRest).length =
      (jsJoinNl (l0 :: ls)).length + 1 + declRest.length := by
    simp [List.length_append]
    omega
  have hloop := findCommentLoop_backward_lines l0 h0 ls hls ('\n' :: declRest) []
    ((jsJoinNl (l0 :: ls) ++ '\n' :: declRest).length + 2) (by rw [hlen]; omega)
  rw [hloop, List.append_nil]

/-- Claim C6 counterexample.  In `"t;\n-- doc\n\ny int"` the line immediately
above the declaration of `y` (position 11) is blank (consecutive newlines
at offsets 9 and 10), yet the comment block above the blank line *is*
attached: `findComment` returns `doc`, while the claim requires no
description to be attached. -/
theorem c6_counterexample :
    findComment ("t;\n-- doc\n\ny int".data) 11 false = some ("doc".data) ∧
    ("t;\n-- doc\n\ny int".data)[10]? = some '\n' ∧
    ("t;\n-- doc\n\ny int".data)[9]? = some '\n' := by
  refine ⟨by decide, by decide, by decide⟩

/-- Witness for the amended C6: a terminator line, a comment line and a
blank line above the declaration `  x uuid`. -/
theorem c6_witness :
    (findComment (jsJoinNl ["create table t (".data, "-- doc".data, []] ++
        '\n' :: "  x uuid".data) 27 false =
      renderLines ((([( [] : List Char), "-- doc".data].reverse.takeWhile okLineB).map
        stripLine).reverse)) ∧
    renderLines ((([( [] : List Char), "-- doc".data].reverse.takeWhile okLineB).map
        stripLine).reverse) = some ("doc".data) := by
  constructor
  · have h := c6_comment_recovery_amended ("create table t (".data)
      ["-- doc".data, []] ("  x uuid".data) 27
      (by decide) (by decide) (by decide) (by decide)
    exact h
  · decide

end PgSchemaGen
